import Mathlib

/-!
# Verification of the ccodetools analysis engine

Shallow embedding of the `ccodetools` repository (a C source-code structural
analyzer) and proofs about it.  The embedding covers:

* the Python string primitives used by the line-pattern extractor
  (`str.strip`, `str.find`, `str.startswith`, slicing) over `List Char`;
* the preprocessor-directive extractor `_extract_defines`
  (`impl/tree_sitter.py` and the verbatim-identical
  `_extract_defines_from_lines` in `impl/clang_analyzer.py`);
* the doc-comment scanner `_extract_comment_before`;
* the tree-sitter concrete syntax tree (`CNode`) and the
  `TreeSitterAnalyzer` extraction routines over it;
* an abstract cursor model of the `ClangAnalyzer` routines;
* the LRU `CachedAnalyzer` (`impl/cached_analyzer.py`).
-/

set_option autoImplicit false

/-- Python strings are modelled as lists of characters. -/
abbrev PyStr := List Char

/-- The ASCII whitespace characters stripped by Python's `str.strip()`. -/
def pyIsSpace (c : Char) : Bool :=
  c = ' ' || c = '\t' || c = '\n' || c = '\r' || c = '\x0b' || c = '\x0c'

/-- Python `s.strip()`: remove leading and trailing whitespace. -/
def pyStrip (s : PyStr) : PyStr :=
  ((s.dropWhile pyIsSpace).reverse.dropWhile pyIsSpace).reverse

/-- Python `s.startswith(p)`. -/
def startswith (p s : PyStr) : Bool :=
  List.isPrefixOf p s

/-- Python `sub in s` (substring containment). -/
def containsSub (sub : PyStr) : PyStr → Bool
  | [] => List.isPrefixOf sub []
  | c :: rest => List.isPrefixOf sub (c :: rest) || containsSub sub rest

/-- Python `s.find(c)` for a single character, as an `Option` instead of `-1`:
the index of the first occurrence of `c`. -/
def pyFind (c : Char) : PyStr → Option Nat
  | [] => none
  | x :: xs => if x = c then some 0 else (pyFind c xs).map (· + 1)

/-- Python `sep.join(xs)`. -/
def pyJoin (sep : PyStr) (xs : List PyStr) : PyStr :=
  List.intercalate sep xs

/-- The `PreprocessorDirective` dataclass of `interface.py`. -/
structure PreprocessorDirective where
  type : String
  content : PyStr
  line : Nat
  value : Option PyStr := none
deriving Repr, DecidableEq

/-- Lines 221-222 of tree_sitter.py:
`delimiters = [idx for idx in [space_idx, tab_idx, paren_idx] if idx != -1]`
followed by `end_idx = min(delimiters) if delimiters else len(rest)`. -/
def pyMinOf3 (o1 o2 o3 : Option Nat) (dflt : Nat) : Nat :=
  match [o1, o2, o3].filterMap id with
  | [] => dflt
  | d :: ds => ds.foldl min d

/-- One iteration of the `_extract_defines` loop of
`TreeSitterAnalyzer` (tree_sitter.py, lines 209-232): given the 0-based
index `i` and the raw line, produce the directive the loop appends, if any. -/
def defineOfLine (i : Nat) (line : PyStr) : Option PreprocessorDirective :=
  let stripped := pyStrip line
  if startswith "#define".data stripped then
    let rest := pyStrip (stripped.drop 7)
    let endIdx := pyMinOf3 (pyFind ' ' rest) (pyFind '\t' rest) (pyFind '(' rest)
      rest.length
    let name := if endIdx > 0 then rest.take endIdx else rest
    let value := if endIdx < rest.length then some (pyStrip (rest.drop endIdx)) else none
    some { type := "define", content := name, line := i + 1, value := value }
  else
    none

/-- `TreeSitterAnalyzer._extract_defines` (tree_sitter.py, lines 206-233).
`ClangAnalyzer._extract_defines_from_lines` (clang_analyzer.py, lines
241-265) is character-for-character the same code; see `clangExtractDefines`. -/
def extract_defines (lines : List PyStr) : List PreprocessorDirective :=
  lines.enum.filterMap (fun p => defineOfLine p.1 p.2)

/-- `ClangAnalyzer._extract_defines_from_lines` (clang_analyzer.py, lines
241-265), a verbatim copy of `TreeSitterAnalyzer._extract_defines`. -/
def clangExtractDefines (lines : List PyStr) : List PreprocessorDirective :=
  extract_defines lines

/-- The spec's boundary for a `#define` remainder: the earliest position
holding a space, a tab, or an opening parenthesis. -/
def defineBoundary : PyStr → Option Nat
  | [] => none
  | x :: xs =>
    if x = ' ' || x = '\t' || x = '(' then some 0
    else (defineBoundary xs).map (· + 1)

/-- The macro-name remainder of a `#define` line: the stripped line with the
7-character `#define` prefix removed and re-stripped. -/
def defineRest (line : PyStr) : PyStr :=
  pyStrip ((pyStrip line).drop 7)

/-- Python `s.replace(pat, rep)` for a non-empty pattern: replace
non-overlapping occurrences left to right.  (An empty pattern leaves the
string unchanged here; all uses in the source have non-empty patterns.) -/
def pyReplace (pat rep : PyStr) : PyStr → PyStr
  | [] => []
  | c :: rest =>
    if pat ≠ [] ∧ pat.isPrefixOf (c :: rest) then
      rep ++ pyReplace pat rep ((c :: rest).drop pat.length)
    else
      c :: pyReplace pat rep rest
termination_by s => s.length
decreasing_by
  · rename_i h
    have hp : 0 < pat.length := List.length_pos.mpr h.1
    simp only [List.length_drop, List.length_cons]
    omega
  · simp

/-- The inner block-comment loop of `_extract_comment_before`
(tree_sitter.py, lines 34-40): scanning upward from Python index `i`
(encoded as fuel `i + 1`; fuel `0` means index `-1`, loop exhausted),
collect stripped lines in source order until a line starting `/*` is found. -/
def ecbBlockCollect (lines : List PyStr) : Nat → List PyStr
  | 0 => []
  | k + 1 =>
    let l := pyStrip (lines.getD k [])
    if startswith "/*".data l then [l]
    else ecbBlockCollect lines k ++ [l]

/-- The outer loop of `_extract_comment_before` (tree_sitter.py, lines
27-49), scanning upward from Python index `i` (fuel `i + 1`; fuel `0`
means the loop condition `i >= 0` failed).  `comments` is the accumulator
into which `comments.insert(0, ...)` pushes. -/
def ecbLoop (lines : List PyStr) : Nat → List PyStr → List PyStr
  | 0, comments => comments
  | k + 1, comments =>
    let line := pyStrip (lines.getD k [])
    if startswith "//".data line then
      ecbLoop lines k (pyStrip (line.drop 2) :: comments)
    else if startswith "/*".data line || containsSub "*/".data line then
      let block := ecbBlockCollect lines (k + 1)
      let blockText :=
        pyStrip (pyReplace "*".data [] (pyReplace "*/".data []
          (pyReplace "/*".data [] (pyJoin [' '] block))))
      blockText :: comments
    else if line = [] then
      ecbLoop lines k comments
    else
      comments

/-- `TreeSitterAnalyzer._extract_comment_before` (tree_sitter.py, lines
22-51): scan backward from the line above `lineNum` (1-indexed), collecting
`//` line comments and block comments, skipping blanks, stopping at any
other line; `none` when nothing was collected. -/
def extract_comment_before (lines : List PyStr) (lineNum : Nat) : Option PyStr :=
  let comments := ecbLoop lines (lineNum - 1) []
  if comments = [] then none else some (pyJoin ['\n'] comments)

/-- A tree-sitter concrete-syntax-tree node: node type, source text,
the field name by which the parent refers to it (tree-sitter edge label,
`none` for plain children), 0-based start and end rows (`start_point[0]`,
`end_point[0]`), and the list of children (named and anonymous alike, in
order, as `node.children` yields them). -/
inductive CNode : Type where
  | mk (ty : String) (text : String) (fieldTag : Option String)
       (startRow endRow : Nat) (children : List CNode)

/-- The node's grammar type (`node.type`). -/
def CNode.ty : CNode → String
  | .mk t _ _ _ _ _ => t

/-- The node's decoded source text (`node.text.decode('utf-8')`). -/
def CNode.text : CNode → String
  | .mk _ tx _ _ _ _ => tx

/-- The field label the parent attached to this node. -/
def CNode.fieldTag : CNode → Option String
  | .mk _ _ f _ _ _ => f

/-- `node.start_point[0]` (0-based row). -/
def CNode.startRow : CNode → Nat
  | .mk _ _ _ s _ _ => s

/-- `node.end_point[0]` (0-based row). -/
def CNode.endRow : CNode → Nat
  | .mk _ _ _ _ e _ => e

/-- `node.children`. -/
def CNode.children : CNode → List CNode
  | .mk _ _ _ _ _ cs => cs

/-- `node.child_by_field_name(f)`: the first direct child carrying field
label `f`. -/
def CNode.childByField (n : CNode) (f : String) : Option CNode :=
  n.children.find? (fun c => c.fieldTag = some f)

mutual

/-- `TreeSitterAnalyzer._get_function_name` (tree_sitter.py, lines 116-124):
unwrap a declarator chain down to the bare identifier node.  (Python would
raise on a missing `declarator` field; such nodes do not occur in the
tree-sitter C grammar, and the model returns `none` there.) -/
def getFunctionName : CNode → Option CNode
  | .mk ty tx f s e cs =>
    if ty = "identifier" then some (.mk ty tx f s e cs)
    else if ty = "function_declarator" then gfnDeclaratorField cs
    else if ty = "pointer_declarator" then gfnDeclaratorField cs
    else none

/-- `self._get_function_name(declarator.child_by_field_name('declarator'))`:
locate the first child labelled `declarator` and recurse into it. -/
def gfnDeclaratorField : List CNode → Option CNode
  | [] => none
  | c :: cs =>
    if c.fieldTag = some "declarator" then getFunctionName c
    else gfnDeclaratorField cs

end

/-- `self._get_function_name(node.child_by_field_name('declarator'))` where
the field may be missing (Python relies on the field being present). -/
def getFunctionNameOpt (d : Option CNode) : Option CNode :=
  d.bind getFunctionName

/-- The name resolved for a `function_definition` node, if any: the
declarator field unwrapped by `_get_function_name`. -/
def fdefName (n : CNode) : Option String :=
  (getFunctionNameOpt (n.childByField "declarator")).map CNode.text

/-- The `FunctionInfo` dataclass of `interface.py`; a parameter dict
`{"type": t, "name": n}` is modelled as the pair `(t, n)`. -/
structure FunctionInfo where
  name : String
  signature : String
  start_line : Nat
  end_line : Nat
  return_type : String
  parameters : List (String × String)
  doc_comment : Option PyStr
  file_path : String
deriving Repr, DecidableEq

/-- `TreeSitterAnalyzer._parse_function` (tree_sitter.py, lines 142-191). -/
def parse_function (n : CNode) (lines : List PyStr) (path : String) :
    Option FunctionInfo :=
  match n.childByField "declarator" with
  | none => none
  | some declarator =>
    match getFunctionName declarator with
    | none => none
    | some nameNode =>
      let name := nameNode.text
      let returnType :=
        match n.childByField "type" with
        | some t => t.text
        | none => "void"
      let parameters : List (String × String) :=
        if declarator.ty = "function_declarator" then
          match declarator.childByField "parameters" with
          | some ps =>
            ps.children.filterMap (fun p =>
              if p.ty = "parameter_declaration" then
                some ((match p.childByField "type" with
                       | some t => t.text
                       | none => ""),
                      (match p.childByField "declarator" with
                       | some d => d.text
                       | none => ""))
              else none)
          | none => []
        else []
      let startLine := n.startRow + 1
      let endLine := n.endRow + 1
      let signature := returnType ++ " " ++ name ++ "(" ++
        String.intercalate ", " (parameters.map (fun p => p.1 ++ " " ++ p.2)) ++ ")"
      some { name := name, signature := signature, start_line := startLine,
             end_line := endLine, return_type := returnType,
             parameters := parameters,
             doc_comment := extract_comment_before lines startLine,
             file_path := path }

mutual

/-- `TreeSitterAnalyzer._extract_functions` (tree_sitter.py, lines 126-140):
depth-first preorder collection of every parsed `function_definition`. -/
def extract_functions (lines : List PyStr) (path : String) : CNode → List FunctionInfo
  | n@(.mk _ _ _ _ _ cs) =>
    (if n.ty = "function_definition" then (parse_function n lines path).toList
     else []) ++
    extractFunctionsList lines path cs

/-- The `for child in node.children: traverse(child)` loop of
`_extract_functions`. -/
def extractFunctionsList (lines : List PyStr) (path : String) :
    List CNode → List FunctionInfo
  | [] => []
  | c :: cs => extract_functions lines path c ++ extractFunctionsList lines path cs

end

/-- `TreeSitterAnalyzer._extract_includes` (tree_sitter.py, lines 193-204);
`ClangAnalyzer._extract_includes_from_lines` is the same code. -/
def extract_includes (lines : List PyStr) : List PreprocessorDirective :=
  lines.enum.filterMap (fun p =>
    let stripped := pyStrip p.2
    if startswith "#include".data stripped then
      some { type := "include", content := stripped, line := p.1 + 1 }
    else none)

/-- `TreeSitterAnalyzer._extract_conditionals` (tree_sitter.py, lines
235-248); `ClangAnalyzer._extract_conditionals` is the same code.  The
first matching keyword of the fixed priority list wins. -/
def extract_conditionals (lines : List PyStr) : List PreprocessorDirective :=
  lines.enum.filterMap (fun p =>
    let stripped := pyStrip p.2
    match ["#ifdef", "#ifndef", "#if", "#elif", "#else", "#endif"].find?
        (fun d => startswith d.data stripped) with
    | some d => some { type := d.drop 1, content := stripped, line := p.1 + 1 }
    | none => none)

/-- A `dict[str, Any]` record value: the engine only ever stores strings
and integers in these records. -/
inductive GVal : Type where
  | str (s : String)
  | nat (n : Nat)
deriving Repr, DecidableEq

/-- A `dict[str, Any]` record, as an insertion-ordered key-value list. -/
abbrev GRecord := List (String × GVal)

mutual

/-- `TreeSitterAnalyzer._extract_structs` (tree_sitter.py, lines 250-268). -/
def extract_structs : CNode → List GRecord
  | n@(.mk _ _ _ _ _ cs) =>
    (if n.ty = "struct_specifier" then
       match n.childByField "name" with
       | some nm => [[("name", GVal.str nm.text), ("line", GVal.nat (n.startRow + 1)),
                      ("end_line", GVal.nat (n.endRow + 1))]]
       | none => []
     else []) ++
    extractStructsList cs

/-- The child loop of `_extract_structs`. -/
def extractStructsList : List CNode → List GRecord
  | [] => []
  | c :: cs => extract_structs c ++ extractStructsList cs

end

mutual

/-- `TreeSitterAnalyzer._extract_enums` (tree_sitter.py, lines 270-287). -/
def extract_enums : CNode → List GRecord
  | n@(.mk _ _ _ _ _ cs) =>
    (if n.ty = "enum_specifier" then
       match n.childByField "name" with
       | some nm => [[("name", GVal.str nm.text), ("line", GVal.nat (n.startRow + 1))]]
       | none => []
     else []) ++
    extractEnumsList cs

/-- The child loop of `_extract_enums`. -/
def extractEnumsList : List CNode → List GRecord
  | [] => []
  | c :: cs => extract_enums c ++ extractEnumsList cs

end

mutual

/-- `TreeSitterAnalyzer._extract_typedefs` (tree_sitter.py, lines 289-306). -/
def extract_typedefs : CNode → List GRecord
  | n@(.mk _ _ _ _ _ cs) =>
    (if n.ty = "type_definition" then
       match n.childByField "declarator" with
       | some d => [[("name", GVal.str d.text), ("line", GVal.nat (n.startRow + 1))]]
       | none => []
     else []) ++
    extractTypedefsList cs

/-- The child loop of `_extract_typedefs`. -/
def extractTypedefsList : List CNode → List GRecord
  | [] => []
  | c :: cs => extract_typedefs c ++ extractTypedefsList cs

end

/-- The `AnalysisResult` dataclass of `interface.py`. -/
structure AnalysisResult where
  file_path : String
  functions : List FunctionInfo
  includes : List PreprocessorDirective
  defines : List PreprocessorDirective
  conditionals : List PreprocessorDirective
  structs : List GRecord
  enums : List GRecord
  typedefs : List GRecord
deriving Repr, DecidableEq

/-- `TreeSitterAnalyzer.analyze_file` (tree_sitter.py, lines 53-75).  The
file read and tree-sitter parse are modelled by handing the function the
parse tree `root` and decoded line array `lines` of the file's content. -/
def tsAnalyzeFile (root : CNode) (lines : List PyStr) (path : String) :
    AnalysisResult :=
  { file_path := path
    functions := extract_functions lines path root
    includes := extract_includes lines
    defines := extract_defines lines
    conditionals := extract_conditionals lines
    structs := extract_structs root
    enums := extract_enums root
    typedefs := extract_typedefs root }

/-- `TreeSitterAnalyzer.list_functions` (tree_sitter.py, lines 77-81). -/
def tsListFunctions (root : CNode) (lines : List PyStr) (path : String) :
    List FunctionInfo :=
  extract_functions lines path root

mutual

/-- The recursive `find_function` of `TreeSitterAnalyzer.get_function_body`
(tree_sitter.py, lines 88-102).  A matching node returns its body text
unconditionally (`if body: return body.text` — the node is truthy); a
child's result is kept only when truthy (`if result:`), so an empty-string
child result is discarded and the search continues. -/
def findFunctionBody (fname : String) : CNode → Option String
  | n@(.mk _ _ _ _ _ cs) =>
    let direct : Option String :=
      if n.ty = "function_definition" then
        match n.childByField "declarator" with
        | some d =>
          match getFunctionName d with
          | some nm =>
            if nm.text = fname then (n.childByField "body").map CNode.text
            else none
          | none => none
        | none => none
      else none
    match direct with
    | some t => some t
    | none => ffbChildren fname cs

/-- The `for child in node.children` loop of `find_function`: a falsy
(`None` or empty-string) child result lets the loop continue. -/
def ffbChildren (fname : String) : List CNode → Option String
  | [] => none
  | c :: cs =>
    match findFunctionBody fname c with
    | some t => if t ≠ "" then some t else ffbChildren fname cs
    | none => ffbChildren fname cs

end

/-- `TreeSitterAnalyzer.get_function_body` (tree_sitter.py, lines 83-104). -/
def tsGetFunctionBody (root : CNode) (fname : String) : Option String :=
  findFunctionBody fname root

/-- A Python `dict[str, set[str]]` as built by `get_call_graph`:
insertion-ordered keys, each with an insertion-ordered duplicate-free
callee list standing for the set. -/
abbrev CallGraph := List (String × List String)

/-- Dict key lookup. -/
def cgLookup (g : CallGraph) (k : String) : Option (List String) :=
  (g.find? (fun p => p.1 = k)).map (·.2)

/-- `call_graph.setdefault(k, set())`. -/
def cgSetdefault (g : CallGraph) (k : String) : CallGraph :=
  if (g.find? (fun p => p.1 = k)).isSome then g else g ++ [(k, [])]

/-- `call_graph[k].add(v)` (no-op on a missing key; the traversal only adds
under keys it has inserted). -/
def cgAddCallee (g : CallGraph) (k v : String) : CallGraph :=
  g.map (fun p => if p.1 = k then (p.1, if v ∈ p.2 then p.2 else p.2 ++ [v]) else p)

/-- The `function_definition` head of `get_call_graph`'s `traverse`
(tree_sitter.py, lines 320-325): resolve the name, make it the current
function, and `setdefault` its callee set. -/
def cgEnterFdef (n : CNode) (cur : Option String) (g : CallGraph) :
    Option String × CallGraph :=
  if n.ty = "function_definition" then
    match getFunctionNameOpt (n.childByField "declarator") with
    | some nm => (some nm.text, cgSetdefault g nm.text)
    | none => (cur, g)
  else (cur, g)

/-- The `call_expression` step of `get_call_graph`'s `traverse`
(tree_sitter.py, lines 327-330): record a direct-identifier callee under
the current function. -/
def cgRecordCall (n : CNode) (cur : Option String) (g : CallGraph) : CallGraph :=
  if n.ty = "call_expression" then
    match cur with
    | some cf =>
      match n.childByField "function" with
      | some fn => if fn.ty = "identifier" then cgAddCallee g cf fn.text else g
      | none => g
    | none => g
  else g

mutual

/-- The `traverse` of `TreeSitterAnalyzer.get_call_graph` (tree_sitter.py,
lines 319-333): a full depth-first walk threading the current function
name downward, recording direct-identifier callees. -/
def cgTraverse : CNode → Option String → CallGraph → CallGraph
  | n@(.mk _ _ _ _ _ cs), cur, g =>
    let p := cgEnterFdef n cur g
    cgTraverseList cs p.1 (cgRecordCall n p.1 p.2)

/-- The child loop of `get_call_graph`'s `traverse`. -/
def cgTraverseList : List CNode → Option String → CallGraph → CallGraph
  | [], _, g => g
  | c :: cs, cur, g => cgTraverseList cs cur (cgTraverse c cur g)

end

/-- Lexicographic code-point comparison of character lists (Python's `<`
on `str`). -/
def charListLt : List Char → List Char → Bool
  | [], [] => false
  | [], _ :: _ => true
  | _ :: _, [] => false
  | a :: as, b :: bs =>
    if a.toNat < b.toNat then true
    else if b.toNat < a.toNat then false
    else charListLt as bs

/-- Python's `<` on strings. -/
def strLt (s t : String) : Bool :=
  charListLt s.data t.data

/-- Ascending insertion into a sorted string list (for Python `sorted`). -/
def insertStr (s : String) : List String → List String
  | [] => [s]
  | t :: ts => if strLt s t then s :: t :: ts else t :: insertStr s ts

/-- Python `sorted` on a list of strings (insertion sort; the inputs here
are duplicate-free sets, so stability is irrelevant). -/
def sortStrs (l : List String) : List String :=
  l.foldr insertStr []

/-- `TreeSitterAnalyzer.get_call_graph` (tree_sitter.py, lines 313-336):
`{k: sorted(v) for k, v in call_graph.items()}`. -/
def tsGetCallGraph (root : CNode) : CallGraph :=
  (cgTraverse root none []).map (fun p => (p.1, sortStrs p.2))

/-- Python's set-valued accumulator for `get_function_dependencies`:
`calls`, `types` and `macros` as duplicate-free insertion lists. -/
structure FnDeps where
  calls : List String
  types : List String
  macros : List String
deriving Repr, DecidableEq

/-- `set.add`: append when absent. -/
def setAdd (l : List String) (v : String) : List String :=
  if v ∈ l then l else l ++ [v]

/-- Python `str.isupper()` restricted to ASCII text (identifiers): at least
one cased character and no lowercase character. -/
def pyIsUpper (s : String) : Bool :=
  s.data.any Char.isAlpha && s.data.all (fun c => !c.isLower)

/-- The `active` reassignment at a `function_definition` node, shared by
all four function-scoped traversals (`active = name_node and
name_node.text.decode() == function_name`, with Python's falsy `None`
modelled as `false`). -/
def activeAtNode (fname : String) (n : CNode) (active : Bool) : Bool :=
  if n.ty = "function_definition" then
    match getFunctionNameOpt (n.childByField "declarator") with
    | some nm => nm.text = fname
    | none => false
  else active

/-- The `call_expression` step of `get_function_dependencies`' `traverse`
(tree_sitter.py, lines 358-361). -/
def depsCallStep (n : CNode) (d : FnDeps) : FnDeps :=
  if n.ty = "call_expression" then
    match n.childByField "function" with
    | some fn => if fn.ty = "identifier" then { d with calls := setAdd d.calls fn.text } else d
    | none => d
  else d

/-- The `type_identifier` step of `get_function_dependencies`' `traverse`
(tree_sitter.py, lines 363-364). -/
def depsTypeStep (n : CNode) (d : FnDeps) : FnDeps :=
  if n.ty = "type_identifier" then { d with types := setAdd d.types n.text } else d

/-- The upper-case-identifier step of `get_function_dependencies`'
`traverse` (tree_sitter.py, lines 366-367). -/
def depsMacroStep (n : CNode) (d : FnDeps) : FnDeps :=
  if n.ty = "identifier" && pyIsUpper n.text then { d with macros := setAdd d.macros n.text } else d

mutual

/-- The `traverse` of `TreeSitterAnalyzer.get_function_dependencies`
(tree_sitter.py, lines 349-370).  Note the `if not active: return` placed
BEFORE the recursion into children: a non-active node's subtree is never
visited. -/
def depsTraverse (fname : String) : CNode → Bool → FnDeps → FnDeps
  | n@(.mk _ _ _ _ _ cs), active, d =>
    let active₁ := activeAtNode fname n active
    if !active₁ then d
    else
      depsTraverseList fname cs active₁ (depsMacroStep n (depsTypeStep n (depsCallStep n d)))

/-- The child loop of `get_function_dependencies`' `traverse`. -/
def depsTraverseList (fname : String) : List CNode → Bool → FnDeps → FnDeps
  | [], _, d => d
  | c :: cs, active, d => depsTraverseList fname cs active (depsTraverse fname c active d)

end

/-- `TreeSitterAnalyzer.get_function_dependencies` (tree_sitter.py, lines
338-373), with each set sorted for output. -/
def tsGetFunctionDependencies (root : CNode) (fname : String) : FnDeps :=
  let d := depsTraverse fname root false ⟨[], [], []⟩
  ⟨sortStrs d.calls, sortStrs d.types, sortStrs d.macros⟩

/-- The four heuristic booleans of `summarize_function`. -/
structure FnSummary where
  allocates_memory : Bool
  frees_memory : Bool
  multiple_returns : Bool
  uses_goto : Bool
deriving Repr, DecidableEq

/-- The `call_expression` step of `summarize_function`'s `traverse`
(tree_sitter.py, lines 400-407): literal `malloc`/`free` name checks. -/
def summarizeCallStep (n : CNode) (s : FnSummary) : FnSummary :=
  if n.ty = "call_expression" then
    match n.childByField "function" with
    | some fn =>
      if fn.ty = "identifier" then
        let s₁ := if fn.text = "malloc" then { s with allocates_memory := true } else s
        if fn.text = "free" then { s₁ with frees_memory := true } else s₁
      else s
    | none => s
  else s

/-- The `return_statement` step of `summarize_function`'s `traverse`
(tree_sitter.py, lines 409-412): bump `return_count`, and flag
`multiple_returns` from the second return on. -/
def summarizeReturnStep (n : CNode) (acc : FnSummary × Nat) : FnSummary × Nat :=
  if n.ty = "return_statement" then
    ((if acc.2 + 1 > 1 then { acc.1 with multiple_returns := true } else acc.1), acc.2 + 1)
  else acc

/-- The `goto_statement` step of `summarize_function`'s `traverse`
(tree_sitter.py, lines 414-415). -/
def summarizeGotoStep (n : CNode) (s : FnSummary) : FnSummary :=
  if n.ty = "goto_statement" then { s with uses_goto := true } else s

mutual

/-- The `traverse` of `TreeSitterAnalyzer.summarize_function`
(tree_sitter.py, lines 389-418), threading the summary record and the
`return_count` counter.  As in `depsTraverse`, `if not active: return`
precedes the recursion into children. -/
def summarizeTraverse (fname : String) : CNode → Bool → FnSummary × Nat → FnSummary × Nat
  | n@(.mk _ _ _ _ _ cs), active, acc =>
    let active₁ := activeAtNode fname n active
    if !active₁ then acc
    else
      let acc₁ := summarizeReturnStep n (summarizeCallStep n acc.1, acc.2)
      summarizeTraverseList fname cs active₁ (summarizeGotoStep n acc₁.1, acc₁.2)

/-- The child loop of `summarize_function`'s `traverse`. -/
def summarizeTraverseList (fname : String) :
    List CNode → Bool → FnSummary × Nat → FnSummary × Nat
  | [], _, acc => acc
  | c :: cs, active, acc =>
    summarizeTraverseList fname cs active (summarizeTraverse fname c active acc)

end

/-- `TreeSitterAnalyzer.summarize_function` (tree_sitter.py, lines 375-421). -/
def tsSummarizeFunction (root : CNode) (fname : String) : FnSummary :=
  (summarizeTraverse fname root false (⟨false, false, false, false⟩, 0)).1

/-- An error-handling record `{line, type}` of `get_error_handling_paths`. -/
structure ErrorPath where
  line : Nat
  type : String
deriving Repr, DecidableEq

mutual

/-- The `traverse` of `TreeSitterAnalyzer.get_error_handling_paths`
(tree_sitter.py, lines 461-483), appending to `errors`; again
`if not active: return` precedes the recursion. -/
def errorsTraverse (fname : String) : CNode → Bool → List ErrorPath → List ErrorPath
  | n@(.mk _ _ _ _ _ cs), active, errors =>
    let active₁ := activeAtNode fname n active
    if !active₁ then errors
    else
      let errors₁ :=
        if n.ty = "return_statement" then errors ++ [⟨n.startRow + 1, "return"⟩] else errors
      let errors₂ :=
        if n.ty = "goto_statement" then errors₁ ++ [⟨n.startRow + 1, "goto"⟩] else errors₁
      errorsTraverseList fname cs active₁ errors₂

/-- The child loop of `get_error_handling_paths`' `traverse`. -/
def errorsTraverseList (fname : String) :
    List CNode → Bool → List ErrorPath → List ErrorPath
  | [], _, errors => errors
  | c :: cs, active, errors =>
    errorsTraverseList fname cs active (errorsTraverse fname c active errors)

end

/-- `TreeSitterAnalyzer.get_error_handling_paths` (tree_sitter.py, lines
455-486). -/
def tsGetErrorHandlingPaths (root : CNode) (fname : String) : List ErrorPath :=
  errorsTraverse fname root false []

/-- The `{io, allocates_memory}` record of `list_side_effects`. -/
structure SideEffects where
  io : List String
  allocates_memory : Bool
deriving Repr, DecidableEq

/-- The `call_expression` step of `list_side_effects`' `traverse`
(tree_sitter.py, lines 508-515): the recognized io set is
`{"printf", "write", "send"}`, and `malloc` flags allocation. -/
def effectsCallStep (n : CNode) (e : SideEffects) : SideEffects :=
  if n.ty = "call_expression" then
    match n.childByField "function" with
    | some fn =>
      if fn.ty = "identifier" then
        let e₁ := if fn.text ∈ ["printf", "write", "send"] then { e with io := setAdd e.io fn.text } else e
        if fn.text = "malloc" then { e₁ with allocates_memory := true } else e₁
      else e
    | none => e
  else e

mutual

/-- The `traverse` of `TreeSitterAnalyzer.list_side_effects`
(tree_sitter.py, lines 499-518); `if not active: return` precedes the
recursion. -/
def effectsTraverse (fname : String) : CNode → Bool → SideEffects → SideEffects
  | n@(.mk _ _ _ _ _ cs), active, e =>
    let active₁ := activeAtNode fname n active
    if !active₁ then e
    else
      effectsTraverseList fname cs active₁ (effectsCallStep n e)

/-- The child loop of `list_side_effects`' `traverse`. -/
def effectsTraverseList (fname : String) :
    List CNode → Bool → SideEffects → SideEffects
  | [], _, e => e
  | c :: cs, active, e =>
    effectsTraverseList fname cs active (effectsTraverse fname c active e)

end

/-- `TreeSitterAnalyzer.list_side_effects` (tree_sitter.py, lines 488-522):
the accumulated io set is sorted on output. -/
def tsListSideEffects (root : CNode) (fname : String) : SideEffects :=
  let e := effectsTraverse fname root false ⟨[], false⟩
  ⟨sortStrs e.io, e.allocates_memory⟩

/-- `TreeSitterAnalyzer.list_globals` (tree_sitter.py, lines 423-438):
only the root's direct children are inspected; each `declaration` node
with a `declarator` field yields a record with exactly a `name` and a
`line` key. -/
def tsListGlobals (root : CNode) : List GRecord :=
  root.children.filterMap (fun n =>
    if n.ty = "declaration" then
      match n.childByField "declarator" with
      | some d => some [("name", GVal.str d.text), ("line", GVal.nat (n.startRow + 1))]
      | none => none
    else none)

mutual

/-- `TreeSitterAnalyzer._walk` + `find_symbol` (tree_sitter.py, lines
308-311 and 440-453): line numbers of every identifier node whose text
equals the symbol, in preorder. -/
def tsFindSymbolLines (symbol : String) : CNode → List Nat
  | n@(.mk _ _ _ _ _ cs) =>
    (if n.ty = "identifier" && n.text = symbol then [n.startRow + 1] else []) ++
    tsFindSymbolLinesList symbol cs

/-- The walk over the children for `find_symbol`. -/
def tsFindSymbolLinesList (symbol : String) : List CNode → List Nat
  | [] => []
  | c :: cs => tsFindSymbolLines symbol c ++ tsFindSymbolLinesList symbol cs

end

/-- An abstract libclang cursor, carrying exactly the attributes
`ClangAnalyzer` reads: `kind` (CursorKind name), `spelling`,
`type.spelling`, `is_definition()`, `location.line` (libclang lines are
1-based), whether `location.file` resolves to the target file's absolute
path, whether `semantic_parent` is the translation-unit cursor,
`raw_comment`, `result_type.spelling`, `displayname`, the extent's start
and end lines, and `get_arguments()` as `(type.spelling, spelling)` pairs. -/
structure ClangCursor where
  kind : String
  spelling : String
  typeSpelling : String
  isDefinition : Bool
  line : Nat
  inTargetFile : Bool
  semanticParentIsTU : Bool
  rawComment : Option PyStr
  resultType : String
  displayname : String
  extentStartLine : Nat
  extentEndLine : Nat
  args : List (String × String)
deriving Repr, DecidableEq

/-- A parsed translation unit: the `walk_preorder()` cursor stream and the
`tu.cursor.get_children()` top-level cursors. -/
structure ClangTU where
  cursors : List ClangCursor
  topLevel : List ClangCursor
deriving Repr, DecidableEq

/-- `ClangAnalyzer._parse_function` (clang_analyzer.py, lines 86-101). -/
def clangParseFunction (c : ClangCursor) (path : String) : FunctionInfo :=
  { name := c.spelling
    signature := c.displayname
    start_line := c.extentStartLine
    end_line := c.extentEndLine
    return_type := c.resultType
    parameters := c.args
    doc_comment := c.rawComment
    file_path := path }

/-- `ClangAnalyzer.list_functions` (clang_analyzer.py, lines 72-84):
function definitions physically located in the target file. -/
def clangListFunctions (tu : ClangTU) (path : String) : List FunctionInfo :=
  (tu.cursors.filter (fun c =>
    c.kind = "FUNCTION_DECL" && c.isDefinition && c.inTargetFile)).map
    (fun c => clangParseFunction c path)

/-- `ClangAnalyzer._extract_structs` (clang_analyzer.py, lines 186-197). -/
def clangExtractStructs (tu : ClangTU) : List GRecord :=
  (tu.cursors.filter (fun c =>
    c.kind = "STRUCT_DECL" && c.isDefinition && c.inTargetFile)).map
    (fun c => [("name", GVal.str c.spelling), ("line", GVal.nat c.line)])

/-- `ClangAnalyzer._extract_enums` (clang_analyzer.py, lines 199-210). -/
def clangExtractEnums (tu : ClangTU) : List GRecord :=
  (tu.cursors.filter (fun c => c.kind = "ENUM_DECL" && c.inTargetFile)).map
    (fun c => [("name", GVal.str c.spelling), ("line", GVal.nat c.line)])

/-- `ClangAnalyzer._extract_typedefs` (clang_analyzer.py, lines 212-223). -/
def clangExtractTypedefs (tu : ClangTU) : List GRecord :=
  (tu.cursors.filter (fun c => c.kind = "TYPEDEF_DECL" && c.inTargetFile)).map
    (fun c => [("name", GVal.str c.spelling), ("line", GVal.nat c.line)])

/-- `ClangAnalyzer.analyze_file` (clang_analyzer.py, lines 47-68): note the
functions list is obtained by calling `self.list_functions(file_path)`. -/
def clangAnalyzeFile (tu : ClangTU) (lines : List PyStr) (path : String) :
    AnalysisResult :=
  { file_path := path
    functions := clangListFunctions tu path
    includes := extract_includes lines
    defines := clangExtractDefines lines
    conditionals := extract_conditionals lines
    structs := clangExtractStructs tu
    enums := clangExtractEnums tu
    typedefs := clangExtractTypedefs tu }

/-- `ClangAnalyzer.get_function_body` (clang_analyzer.py, lines 103-118):
the first definition cursor spelled `fname` yields the joined line slice
`lines[start-1 : end]` of the file's `readlines()` (here `fileLines`,
newlines included); otherwise `None`. -/
def clangGetFunctionBody (tu : ClangTU) (fileLines : List String)
    (fname : String) : Option String :=
  match tu.cursors.find? (fun c =>
      c.kind = "FUNCTION_DECL" && c.spelling = fname && c.isDefinition) with
  | some c =>
    some (String.join ((fileLines.drop (c.extentStartLine - 1)).take
      (c.extentEndLine - (c.extentStartLine - 1))))
  | none => none

/-- `ClangAnalyzer.list_globals` (clang_analyzer.py, lines 141-153):
top-level `VAR_DECL` children of the translation-unit cursor; each record
has exactly a `name`, a `type` and a `line` key. -/
def clangListGlobals (tu : ClangTU) : List GRecord :=
  (tu.topLevel.filter (fun c =>
    c.kind = "VAR_DECL" && c.semanticParentIsTU)).map
    (fun c => [("name", GVal.str c.spelling), ("type", GVal.str c.typeSpelling),
               ("line", GVal.nat c.line)])

/-- File content as a byte sequence. -/
abbrev Bytes := List Nat

/-- `hashlib.sha256(content).hexdigest()` (cached_analyzer.py, line 34),
modelled as an injective digest of the content bytes: the cache design
relies on the digest being collision-free, so the model identifies the
digest with the bytes themselves. -/
def contentHash (b : Bytes) : Bytes := b

/-- A cache key `(backend_id, file_path, content_hash)`
(cached_analyzer.py, line 21). -/
abbrev CacheKey := String × String × Bytes

/-- The wrapped backend of `CachedAnalyzer`, as its class name plus the
four cached operations, each a deterministic function of the file's
content bytes (the Analyzer Contract requires value-equal results on
unchanged content; both concrete backends re-read and re-parse the file on
every call).  The result types are opaque to the caching layer. -/
structure MBackend (A F G L : Type) where
  bid : String
  analyzeFn : Bytes → A
  functionsFn : Bytes → F
  callGraphFn : Bytes → G
  globalsFn : Bytes → L

/-- A cache entry (cached_analyzer.py, lines 50-55): the file path, hash
and content bytes, plus the `derived` dict's four lazily filled slots
(`analysis_result`, `functions`, `call_graph`, `globals`). -/
structure CEntry (A F G L : Type) where
  file_path : String
  hash : Bytes
  content : Bytes
  analysis : Option A := none
  functions : Option F := none
  callGraph : Option G := none
  globals : Option L := none

/-- The `OrderedDict` file cache: an association list, least recently used
first, most recently used last. -/
abbrev Cache (A F G L : Type) := List (CacheKey × CEntry A F G L)

/-- The error a failing Python dict operation raises
(`OrderedDict.popitem` on an empty dict raises `KeyError`). -/
inductive PyError : Type where
  | keyError
deriving Repr, DecidableEq

/-- Dictionary membership/lookup `key in self._file_cache` /
`self._file_cache[key]`. -/
def keyLookup {A F G L : Type} (cache : Cache A F G L) (k : CacheKey) :
    Option (CEntry A F G L) :=
  (cache.find? (fun p => p.1 = k)).map (·.2)

/-- `OrderedDict.move_to_end(key)`: the entry for `k` moves to the
most-recently-used (last) position. -/
def moveToEnd {A F G L : Type} (cache : Cache A F G L) (k : CacheKey)
    (e : CEntry A F G L) : Cache A F G L :=
  cache.filter (fun p => p.1 ≠ k) ++ [(k, e)]

/-- In-place mutation of the cached entry object for `k` (the Python entry
dict is shared between the cache and the caller). -/
def cacheUpdate {A F G L : Type} (cache : Cache A F G L) (k : CacheKey)
    (e : CEntry A F G L) : Cache A F G L :=
  cache.map (fun p => if p.1 = k then (k, e) else p)

/-- `CachedAnalyzer._get_file_entry` (cached_analyzer.py, lines 37-58):
read and hash the file's current bytes, build the key; on a hit, bump the
entry to most-recently-used and return it; on a miss, first evict the
least-recently-used entry whenever `len(cache) >= max_files`
(`popitem(last=False)`, which raises `KeyError` on an empty dict), then
insert a fresh entry at the most-recently-used position. -/
def getFileEntry {A F G L : Type} (maxFiles : Nat) (bid path : String)
    (content : Bytes) (cache : Cache A F G L) :
    Except PyError (CEntry A F G L × Cache A F G L) :=
  let key : CacheKey := (bid, path, contentHash content)
  match keyLookup cache key with
  | some e => .ok (e, moveToEnd cache key e)
  | none =>
    let evicted : Except PyError (Cache A F G L) :=
      if cache.length ≥ maxFiles then
        match cache with
        | [] => .error .keyError
        | _ :: t => .ok t
      else .ok cache
    match evicted with
    | .error err => .error err
    | .ok cache₁ =>
      let entry : CEntry A F G L :=
        { file_path := path, hash := contentHash content, content := content }
      .ok (entry, cache₁ ++ [(key, entry)])

/-- The shared shape of the four cached operations (cached_analyzer.py,
lines 62-96): fetch the file entry, and if the requested derived slot is
empty, delegate to the wrapped backend (which re-reads the file) and store
the result in the shared entry. -/
def cachedOp {A F G L R : Type} (B : MBackend A F G L)
    (get : CEntry A F G L → Option R) (set : CEntry A F G L → R → CEntry A F G L)
    (fn : Bytes → R) (maxFiles : Nat) (fs : String → Bytes)
    (cache : Cache A F G L) (path : String) :
    Except PyError (R × Cache A F G L) :=
  match getFileEntry maxFiles B.bid path (fs path) cache with
  | .error err => .error err
  | .ok (e, c) =>
    match get e with
    | some r => .ok (r, c)
    | none =>
      let r := fn (fs path)
      .ok (r, cacheUpdate c (B.bid, path, contentHash (fs path)) (set e r))

/-- `CachedAnalyzer.analyze_file` (cached_analyzer.py, lines 62-69). -/
def cachedAnalyzeFile {A F G L : Type} (B : MBackend A F G L) (maxFiles : Nat)
    (fs : String → Bytes) (cache : Cache A F G L) (path : String) :
    Except PyError (A × Cache A F G L) :=
  cachedOp B (·.analysis) (fun e r => { e with analysis := some r })
    B.analyzeFn maxFiles fs cache path

/-- `CachedAnalyzer.list_functions` (cached_analyzer.py, lines 71-78). -/
def cachedListFunctions {A F G L : Type} (B : MBackend A F G L) (maxFiles : Nat)
    (fs : String → Bytes) (cache : Cache A F G L) (path : String) :
    Except PyError (F × Cache A F G L) :=
  cachedOp B (·.functions) (fun e r => { e with functions := some r })
    B.functionsFn maxFiles fs cache path

/-- `CachedAnalyzer.get_call_graph` (cached_analyzer.py, lines 80-87). -/
def cachedGetCallGraph {A F G L : Type} (B : MBackend A F G L) (maxFiles : Nat)
    (fs : String → Bytes) (cache : Cache A F G L) (path : String) :
    Except PyError (G × Cache A F G L) :=
  cachedOp B (·.callGraph) (fun e r => { e with callGraph := some r })
    B.callGraphFn maxFiles fs cache path

/-- `CachedAnalyzer.list_globals` (cached_analyzer.py, lines 89-96). -/
def cachedListGlobals {A F G L : Type} (B : MBackend A F G L) (maxFiles : Nat)
    (fs : String → Bytes) (cache : Cache A F G L) (path : String) :
    Except PyError (L × Cache A F G L) :=
  cachedOp B (·.globals) (fun e r => { e with globals := some r })
    B.globalsFn maxFiles fs cache path

/-- Entry coherence: every filled derived slot holds the backend's result
on the entry's stored content. -/
def EntryInv {A F G L : Type} (B : MBackend A F G L) (e : CEntry A F G L) : Prop :=
  (∀ r, e.analysis = some r → r = B.analyzeFn e.content) ∧
  (∀ r, e.functions = some r → r = B.functionsFn e.content) ∧
  (∀ r, e.callGraph = some r → r = B.callGraphFn e.content) ∧
  (∀ r, e.globals = some r → r = B.globalsFn e.content)

/-- The coherence invariant of the cache: every entry sits under this
backend's id, its key's hash component digests its stored content, and
the entry is coherent (`EntryInv`). -/
def CacheInv {A F G L : Type} (B : MBackend A F G L) (cache : Cache A F G L) : Prop :=
  ∀ p ∈ cache,
    p.1.1 = B.bid ∧
    p.1.2.2 = contentHash p.2.content ∧
    EntryInv B p.2

/-- States of the cache reachable from the empty cache by any sequence of
the four cached operations, against arbitrary intervening file contents. -/
inductive CacheReach {A F G L : Type} (B : MBackend A F G L) (maxFiles : Nat) :
    Cache A F G L → Prop where
  | init : CacheReach B maxFiles []
  | analyze {c c' : Cache A F G L} {fs : String → Bytes} {path : String} {r : A} :
      CacheReach B maxFiles c → cachedAnalyzeFile B maxFiles fs c path = .ok (r, c') →
      CacheReach B maxFiles c'
  | functions {c c' : Cache A F G L} {fs : String → Bytes} {path : String} {r : F} :
      CacheReach B maxFiles c → cachedListFunctions B maxFiles fs c path = .ok (r, c') →
      CacheReach B maxFiles c'
  | callGraph {c c' : Cache A F G L} {fs : String → Bytes} {path : String} {r : G} :
      CacheReach B maxFiles c → cachedGetCallGraph B maxFiles fs c path = .ok (r, c') →
      CacheReach B maxFiles c'
  | globals {c c' : Cache A F G L} {fs : String → Bytes} {path : String} {r : L} :
      CacheReach B maxFiles c → cachedListGlobals B maxFiles fs c path = .ok (r, c') →
      CacheReach B maxFiles c'

/-- Shorthand for a leaf `identifier` node. -/
def tsId (f : Option String) (txt : String) (r : Nat) : CNode :=
  .mk "identifier" txt f r r []

/-- Shorthand for a leaf token/anonymous node. -/
def tsTok (ty txt : String) (r : Nat) : CNode :=
  .mk ty txt none r r []

/-- `parameter_declaration` node for `int <nm>` on row 0. -/
def sampleParam (nm : String) : CNode :=
  .mk "parameter_declaration" ("int " ++ nm) none 0 0
    [.mk "primitive_type" "int" (some "type") 0 0 [], tsId (some "declarator") nm 0]

/-- Declarator of `int add(int a, int b)`. -/
def addDeclarator : CNode :=
  .mk "function_declarator" "add(int a, int b)" (some "declarator") 0 0
    [tsId (some "declarator") "add" 0,
     .mk "parameter_list" "(int a, int b)" (some "parameters") 0 0
       [tsTok "(" "(" 0, sampleParam "a", tsTok "," "," 0, sampleParam "b",
        tsTok ")" ")" 0]]

/-- Body of `add`: `{ return a + b; }`. -/
def addBody : CNode :=
  .mk "compound_statement" "{ return a + b; }" (some "body") 0 0
    [tsTok "\x7b" "\x7b" 0,
     .mk "return_statement" "return a + b;" none 0 0
       [tsTok "return" "return" 0,
        .mk "binary_expression" "a + b" none 0 0
          [tsId (some "left") "a" 0, tsTok "+" "+" 0, tsId (some "right") "b" 0],
        tsTok ";" ";" 0],
     tsTok "\x7d" "\x7d" 0]

/-- The `function_definition` node of
`int add(int a, int b) { return a + b; }` (row 0). -/
def addFn : CNode :=
  .mk "function_definition" "int add(int a, int b) { return a + b; }" none 0 0
    [.mk "primitive_type" "int" (some "type") 0 0 [], addDeclarator, addBody]

/-- Declarator of `int main()` (row 1). -/
def mainDeclarator : CNode :=
  .mk "function_declarator" "main()" (some "declarator") 1 1
    [tsId (some "declarator") "main" 1,
     .mk "parameter_list" "()" (some "parameters") 1 1
       [tsTok "(" "(" 1, tsTok ")" ")" 1]]

/-- The nested call `add(1,2)`. -/
def addCall : CNode :=
  .mk "call_expression" "add(1,2)" none 1 1
    [tsId (some "function") "add" 1,
     .mk "argument_list" "(1,2)" (some "arguments") 1 1
       [tsTok "(" "(" 1, .mk "number_literal" "1" none 1 1 [], tsTok "," "," 1,
        .mk "number_literal" "2" none 1 1 [], tsTok ")" ")" 1]]

/-- The call `printf("%d", add(1,2))`. -/
def printfCall : CNode :=
  .mk "call_expression" "printf(\"%d\", add(1,2))" none 1 1
    [tsId (some "function") "printf" 1,
     .mk "argument_list" "(\"%d\", add(1,2))" (some "arguments") 1 1
       [tsTok "(" "(" 1, .mk "string_literal" "\"%d\"" none 1 1 [], tsTok "," "," 1,
        addCall, tsTok ")" ")" 1]]

/-- Body of `main`: `{ printf("%d", add(1,2)); return 0; }`. -/
def mainBody : CNode :=
  .mk "compound_statement" "\x7b printf(\"%d\", add(1,2)); return 0; \x7d" (some "body") 1 1
    [tsTok "\x7b" "\x7b" 1,
     .mk "expression_statement" "printf(\"%d\", add(1,2));" none 1 1
       [printfCall, tsTok ";" ";" 1],
     .mk "return_statement" "return 0;" none 1 1
       [tsTok "return" "return" 1, .mk "number_literal" "0" none 1 1 [],
        tsTok ";" ";" 1],
     tsTok "\x7d" "\x7d" 1]

/-- The `function_definition` node of `main` (row 1). -/
def mainFn : CNode :=
  .mk "function_definition" "int main() \x7b printf(\"%d\", add(1,2)); return 0; \x7d"
    none 1 1
    [.mk "primitive_type" "int" (some "type") 1 1 [], mainDeclarator, mainBody]

/-- The parse tree of the spec's end-to-end scenario source:
`int add(int a, int b) { return a + b; }` on line 1 and
`int main() { printf("%d", add(1,2)); return 0; }` on line 2. -/
def sampleRoot : CNode :=
  .mk "translation_unit"
    "int add(int a, int b) \x7b return a + b; \x7d\nint main() \x7b printf(\"%d\", add(1,2)); return 0; \x7d"
    none 0 1 [addFn, mainFn]

/-- The call `malloc(10)` (value of an initializer). -/
def mallocCall : CNode :=
  .mk "call_expression" "malloc(10)" (some "value") 0 0
    [tsId (some "function") "malloc" 0,
     .mk "argument_list" "(10)" (some "arguments") 0 0
       [tsTok "(" "(" 0, .mk "number_literal" "10" none 0 0 [], tsTok ")" ")" 0]]

/-- The local declaration `void* p = malloc(10);`. -/
def mallocDecl : CNode :=
  .mk "declaration" "void* p = malloc(10);" none 0 0
    [.mk "primitive_type" "void" (some "type") 0 0 [],
     .mk "init_declarator" "* p = malloc(10)" (some "declarator") 0 0
       [.mk "pointer_declarator" "* p" (some "declarator") 0 0
          [tsTok "*" "*" 0, tsId (some "declarator") "p" 0],
        tsTok "=" "=" 0, mallocCall],
     tsTok ";" ";" 0]

/-- Body of the malloc scenario's `main`:
`{ void* p = malloc(10); return 0; }`. -/
def mallocMainBody : CNode :=
  .mk "compound_statement" "{ void* p = malloc(10); return 0; }" (some "body") 0 0
    [tsTok "\x7b" "\x7b" 0, mallocDecl,
     .mk "return_statement" "return 0;" none 0 0
       [tsTok "return" "return" 0, .mk "number_literal" "0" none 0 0 [],
        tsTok ";" ";" 0],
     tsTok "\x7d" "\x7d" 0]

/-- The `function_definition` node of
`int main() { void* p = malloc(10); return 0; }` (row 0). -/
def mallocMain : CNode :=
  .mk "function_definition" "int main() { void* p = malloc(10); return 0; }"
    none 0 0
    [.mk "primitive_type" "int" (some "type") 0 0 [],
     .mk "function_declarator" "main()" (some "declarator") 0 0
       [tsId (some "declarator") "main" 0,
        .mk "parameter_list" "()" (some "parameters") 0 0
          [tsTok "(" "(" 0, tsTok ")" ")" 0]],
     mallocMainBody]

/-- The parse tree of the one-line file
`int main() { void* p = malloc(10); return 0; }`. -/
def mallocRoot : CNode :=
  .mk "translation_unit" "int main() { void* p = malloc(10); return 0; }"
    none 0 0 [mallocMain]

mutual

/-- Whether the subtree holds a `function_definition` node whose
declarator resolves (via `_get_function_name`) to `fname`. -/
def hasFdefNamed (fname : String) : CNode → Bool
  | n@(.mk _ _ _ _ _ cs) =>
    (n.ty = "function_definition" && fdefName n = some fname) ||
    hasFdefNamedList fname cs

/-- List form of `hasFdefNamed`. -/
def hasFdefNamedList (fname : String) : List CNode → Bool
  | [] => false
  | c :: cs => hasFdefNamed fname c || hasFdefNamedList fname cs

end

mutual

/-- Whether the subtree holds a `call_expression` node whose `function`
field child is an `identifier` with text `callee`. -/
def hasCallTo (callee : String) : CNode → Bool
  | n@(.mk _ _ _ _ _ cs) =>
    (n.ty = "call_expression" &&
      (match n.childByField "function" with
       | some fn => fn.ty = "identifier" && fn.text = callee
       | none => false)) ||
    hasCallToList callee cs

/-- List form of `hasCallTo`. -/
def hasCallToList (callee : String) : List CNode → Bool
  | [] => false
  | c :: cs => hasCallTo callee c || hasCallToList callee cs

end

/-- Whether this node itself is a `call_expression` whose `function` field
child is an `identifier` (the only kind of call the call graph records). -/
def isIdCallNode (n : CNode) : Bool :=
  n.ty = "call_expression" &&
    (match n.childByField "function" with
     | some fn => fn.ty = "identifier"
     | none => false)

mutual

/-- Whether the subtree holds any `call_expression` node whose `function`
field child is an `identifier`. -/
def hasIdCall : CNode → Bool
  | n@(.mk _ _ _ _ _ cs) =>
    isIdCallNode n || hasIdCallList cs

/-- List form of `hasIdCall`. -/
def hasIdCallList : List CNode → Bool
  | [] => false
  | c :: cs => hasIdCall c || hasIdCallList cs

end

/-- Whether a record carries a given key. -/
def recordHasKey (r : GRecord) (k : String) : Bool :=
  r.any (fun p => p.1 = k)

/-- A top-level declaration `int x = 5;` (row 0). -/
def gDeclNode : CNode :=
  .mk "declaration" "int x = 5;" none 0 0
    [.mk "primitive_type" "int" (some "type") 0 0 [],
     .mk "init_declarator" "x = 5" (some "declarator") 0 0
       [tsId (some "declarator") "x" 0, tsTok "=" "=" 0,
        .mk "number_literal" "5" (some "value") 0 0 []],
     tsTok ";" ";" 0]

/-- The parse tree of the one-line file `int x = 5;`. -/
def gRoot : CNode :=
  .mk "translation_unit" "int x = 5;" none 0 0 [gDeclNode]

mutual

/-- Whether every `function_definition` named `f` in the subtree has a
subtree free of direct-identifier call expressions (the code's notion of
"calls no other function"). -/
def fdefsCallFree (f : String) : CNode → Bool
  | n@(.mk _ _ _ _ _ cs) =>
    (!(n.ty = "function_definition" && fdefName n = some f) || !hasIdCall n) &&
    fdefsCallFreeList f cs

/-- List form of `fdefsCallFree`. -/
def fdefsCallFreeList (f : String) : List CNode → Bool
  | [] => true
  | c :: cs => fdefsCallFree f c && fdefsCallFreeList f cs

end

/-- The directive content exactly as claim C5 words it: the text between
the `#define` prefix and the earliest of first space, first tab, or first
`(` in the remainder. -/
def specDefineContentClaim (rest : PyStr) : PyStr :=
  match defineBoundary rest with
  | some b => rest.take b
  | none => rest

/-- The directive content as the code computes it, described after the
amendment: the text before the boundary, except that a boundary at
position 0 yields the whole remainder. -/
def specDefineContentAmended (rest : PyStr) : PyStr :=
  match defineBoundary rest with
  | some b => if b = 0 then rest else rest.take b
  | none => rest

/-- The directive value per the claim: the trimmed text from the boundary
onward, absent when no boundary exists. -/
def specDefineValue (rest : PyStr) : Option PyStr :=
  match defineBoundary rest with
  | some b => some (pyStrip (rest.drop b))
  | none => none

/-- A top-level `VAR_DECL` cursor for `int x = 5;` at line 1. -/
def gVarCursor : ClangCursor :=
  { kind := "VAR_DECL", spelling := "x", typeSpelling := "int",
    isDefinition := true, line := 1, inTargetFile := true,
    semanticParentIsTU := true, rawComment := none, resultType := "",
    displayname := "x", extentStartLine := 1, extentEndLine := 1, args := [] }

/-- The translation unit of the one-line file `int x = 5;`. -/
def gTU : ClangTU := ⟨[gVarCursor], [gVarCursor]⟩

/-- A `FUNCTION_DECL` definition cursor for a function `helper` whose
definition lives in an included header (`location.file` is not the target
file), spanning lines 3-5 of that header. -/
def hdrFnCursor : ClangCursor :=
  { kind := "FUNCTION_DECL", spelling := "helper", typeSpelling := "int ()",
    isDefinition := true, line := 3, inTargetFile := false,
    semanticParentIsTU := true, rawComment := none, resultType := "int",
    displayname := "helper()", extentStartLine := 3, extentEndLine := 5,
    args := [] }

/-- The translation unit of a one-line target file that includes a header
defining `helper`: the preorder walk sees the header's definition cursor,
but nothing in the target file defines `helper`. -/
def hdrTU : ClangTU := ⟨[hdrFnCursor], []⟩

/-- The `FunctionInfo` the tree-sitter extractor produces for `add` in the
sample tree (no source lines supplied, so no doc comment). -/
def addFnInfo : FunctionInfo :=
  { name := "add", signature := "int add(int a, int b)", start_line := 1,
    end_line := 1, return_type := "int",
    parameters := [("int", "a"), ("int", "b")], doc_comment := none,
    file_path := "sample.c" }

/-- The `FunctionInfo` the tree-sitter extractor produces for `main` in
the sample tree. -/
def mainFnInfo : FunctionInfo :=
  { name := "main", signature := "int main()", start_line := 2,
    end_line := 2, return_type := "int", parameters := [],
    doc_comment := none, file_path := "sample.c" }

/-- An abstract backend instance over `Nat` results (each operation
returns the content's length), used for concrete cache runs. -/
def cB : MBackend Nat Nat Nat Nat :=
  ⟨"TreeSitterAnalyzer", List.length, List.length, List.length, List.length⟩

/-- The cache state after analyzing path `a.c` with content `[0]` from an
empty cache. -/
def cSt1 : Cache Nat Nat Nat Nat :=
  [(("TreeSitterAnalyzer", "a.c", [0]),
    { file_path := "a.c", hash := [0], content := [0], analysis := some 1 })]

/-- The cache state after then analyzing `a.c` with changed content
`[0, 1]`. -/
def cSt2 : Cache Nat Nat Nat Nat :=
  cSt1 ++ [(("TreeSitterAnalyzer", "a.c", [0, 1]),
    { file_path := "a.c", hash := [0, 1], content := [0, 1],
      analysis := some 2 })]

/-- The fresh entry `_get_file_entry` builds on a miss
(cached_analyzer.py, lines 50-55). -/
def freshEntry {A F G L : Type} (path : String) (ct : Bytes) : CEntry A F G L :=
  { file_path := path, hash := contentHash ct, content := ct }

/-- The single cache entry of `cSt1` (path `a.c`, content `[0]`, cached
analysis result `1`). -/
def cEnt1 : CEntry Nat Nat Nat Nat :=
  { file_path := "a.c", hash := [0], content := [0], analysis := some 1 }

theorem CNode.sizeOf_lt_of_mem_children {c n : CNode} (h : c ∈ n.children) :
    sizeOf c < sizeOf n := by
  cases n with
  | mk ty tx f s e cs =>
    simp only [CNode.children] at h
    have := List.sizeOf_lt_of_mem h
    simp only [CNode.mk.sizeOf_spec]
    omega

theorem CNode.childByField_mem {n : CNode} {f : String} {c : CNode}
    (h : n.childByField f = some c) : c ∈ n.children :=
  List.mem_of_find?_eq_some h

theorem CNode.sizeOf_lt_of_childByField {n : CNode} {f : String} {c : CNode}
    (h : n.childByField f = some c) : sizeOf c < sizeOf n :=
  CNode.sizeOf_lt_of_mem_children (CNode.childByField_mem h)

/-- C1: the claim says the syntax-tree backend's function-scoped queries
descend into non-active subtrees to find the target function, so that
`summarize_function` flags `allocates_memory` when the target's body calls
`malloc`.  The code refutes this: each of the four traversals executes
`if not active: return` BEFORE recursing into children, so starting from
the (never active) `translation_unit` root the walk stops immediately and
no fact is ever recorded.  On the file
`int main() { void* p = malloc(10); return 0; }` — whose tree does contain
a `main` definition with a `malloc` call in its body —
`summarize_function` reports `allocates_memory = false`; on the
repository's own two-function sample (see `sampleRoot`),
`get_function_dependencies`, `list_side_effects` and
`get_error_handling_paths` likewise return empty results, contradicting
the repository's tests (`test_get_function_dependencies` expects `add` and
`printf` among `main`'s calls, `test_list_side_effects_main` expects
`printf` in `main`'s io set, `test_get_error_handling_paths` expects at
least one return record for `main`). -/
theorem C1_function_scope_queries_never_descend :
    hasFdefNamed "main" mallocRoot = true ∧
    mallocMain.ty = "function_definition" ∧
    fdefName mallocMain = some "main" ∧
    mallocMain.childByField "body" = some mallocMainBody ∧
    hasCallTo "malloc" mallocMainBody = true ∧
    tsSummarizeFunction mallocRoot "main" =
      { allocates_memory := false, frees_memory := false,
        multiple_returns := false, uses_goto := false } ∧
    tsGetFunctionDependencies sampleRoot "main" = ⟨[], [], []⟩ ∧
    tsListSideEffects sampleRoot "main" = ⟨[], false⟩ ∧
    tsGetErrorHandlingPaths sampleRoot "main" = [] :=
  ⟨rfl, rfl, rfl, rfl, rfl, rfl, rfl, rfl, rfl⟩

theorem find?_key_map {β : Type} (g : List (String × β)) (h : String × β → String × β)
    (hk : ∀ p, (h p).1 = p.1) (k : String) :
    (g.map h).find? (fun p => p.1 = k) = (g.find? (fun p => p.1 = k)).map h := by
  induction g with
  | nil => rfl
  | cons q g ih =>
    by_cases hq : q.1 = k
    · simp [List.find?_cons, hk q, hq]
    · simp [List.find?_cons, hk q, hq, ih]

theorem cgLookup_setdefault_self (g : CallGraph) (k : String) :
    (cgLookup (cgSetdefault g k) k).isSome := by
  unfold cgSetdefault
  split
  · rename_i h
    simpa [cgLookup] using h
  · rename_i h
    have hg : g.find? (fun p => p.1 = k) = none :=
      Option.not_isSome_iff_eq_none.mp h
    simp [cgLookup, List.find?_append, hg, List.find?_cons]

theorem cgLookup_setdefault_other (g : CallGraph) (k k' : String) (h : k' ≠ k) :
    cgLookup (cgSetdefault g k) k' = cgLookup g k' := by
  unfold cgSetdefault
  split
  · rfl
  · have h' : ¬ (k = k') := fun hh => h hh.symm
    simp [cgLookup, List.find?_append, List.find?_cons, h']

theorem cgLookup_setdefault_none (g : CallGraph) (k : String)
    (h : cgLookup g k = none) : cgLookup (cgSetdefault g k) k = some [] := by
  have hf : g.find? (fun p => p.1 = k) = none := by
    unfold cgLookup at h
    exact Option.map_eq_none'.mp h
  unfold cgSetdefault
  rw [hf]
  simp [cgLookup, List.find?_append, hf, List.find?_cons]

theorem cgLookup_setdefault_some (g : CallGraph) (k : String) (v : List String)
    (h : cgLookup g k = some v) : cgLookup (cgSetdefault g k) k = some v := by
  have hf : (g.find? (fun p => p.1 = k)).isSome := by
    unfold cgLookup at h
    rcases hx : g.find? (fun p => p.1 = k) with _ | p
    · rw [hx] at h; simp at h
    · rw [hx]; rfl
  unfold cgSetdefault
  rw [if_pos hf]
  exact h

theorem cgAddCallee_key_fixed (k v : String) :
    ∀ p : String × List String,
      ((fun p : String × List String =>
        if p.1 = k then (p.1, if v ∈ p.2 then p.2 else p.2 ++ [v]) else p) p).1 = p.1 := by
  intro p
  by_cases hp : p.1 = k <;> simp [hp]

theorem cgLookup_addCallee_other (g : CallGraph) (k k' v : String) (h : k' ≠ k) :
    cgLookup (cgAddCallee g k v) k' = cgLookup g k' := by
  unfold cgLookup cgAddCallee
  rw [find?_key_map _ _ (cgAddCallee_key_fixed k v)]
  rcases hf : g.find? (fun p => p.1 = k') with _ | p
  · rw [hf]; rfl
  · rw [hf]
    have hp : p.1 = k' := by
      have := List.find?_some hf
      simpa using this
    have hpk : ¬ (p.1 = k) := by rw [hp]; exact h
    simp [hpk]

theorem cgLookup_addCallee_isSome (g : CallGraph) (k k' v : String) :
    (cgLookup (cgAddCallee g k v) k').isSome = (cgLookup g k').isSome := by
  unfold cgLookup cgAddCallee
  rw [find?_key_map _ _ (cgAddCallee_key_fixed k v)]
  rcases hf : g.find? (fun p => p.1 = k') with _ | p <;> rw [hf] <;> rfl

theorem cgLookup_setdefault_isSome_mono (g : CallGraph) (k f : String)
    (h : (cgLookup g f).isSome) : (cgLookup (cgSetdefault g k) f).isSome := by
  by_cases hf : f = k
  · subst hf; exact cgLookup_setdefault_self g f
  · rw [cgLookup_setdefault_other g k f hf]; exact h

theorem cgEnterFdef_isSome_mono (f : String) (n : CNode) (cur : Option String)
    (g : CallGraph) (h : (cgLookup g f).isSome) :
    (cgLookup (cgEnterFdef n cur g).2 f).isSome := by
  unfold cgEnterFdef
  split
  · split
    · exact cgLookup_setdefault_isSome_mono g _ f h
    · exact h
  · exact h

theorem cgRecordCall_isSome_mono (f : String) (n : CNode) (cur : Option String)
    (g : CallGraph) (h : (cgLookup g f).isSome) :
    (cgLookup (cgRecordCall n cur g) f).isSome := by
  unfold cgRecordCall
  split
  · split
    · split
      · split
        · rw [cgLookup_addCallee_isSome]; exact h
        · exact h
      · exact h
    · exact h
  · exact h

mutual

theorem cgTraverse_isSome_mono (f : String) (n : CNode) (cur : Option String)
    (g : CallGraph) (h : (cgLookup g f).isSome) :
    (cgLookup (cgTraverse n cur g) f).isSome := by
  cases n with
  | mk ty tx ft sr er cs =>
    rw [cgTraverse]
    exact cgTraverseList_isSome_mono f cs _ _
      (cgRecordCall_isSome_mono f _ _ _ (cgEnterFdef_isSome_mono f _ cur g h))
termination_by sizeOf n

theorem cgTraverseList_isSome_mono (f : String) (l : List CNode) (cur : Option String)
    (g : CallGraph) (h : (cgLookup g f).isSome) :
    (cgLookup (cgTraverseList l cur g) f).isSome := by
  match l with
  | [] => rw [cgTraverseList]; exact h
  | c :: cs =>
    rw [cgTraverseList]
    exact cgTraverseList_isSome_mono f cs cur _ (cgTraverse_isSome_mono f c cur g h)
termination_by sizeOf l

end

mutual

theorem cgTraverse_fdef_present (f : String) (n : CNode) (cur : Option String)
    (g : CallGraph) (h : hasFdefNamed f n = true) :
    (cgLookup (cgTraverse n cur g) f).isSome := by
  cases n with
  | mk ty tx ft sr er cs =>
    rw [cgTraverse]
    simp only [hasFdefNamed, Bool.or_eq_true, Bool.and_eq_true, decide_eq_true_eq] at h
    rcases h with ⟨hty, hname⟩ | hlist
    · obtain ⟨nm, hnm, htext⟩ := Option.map_eq_some'.mp hname
      have henter : cgEnterFdef (.mk ty tx ft sr er cs) cur g =
          (some f, cgSetdefault g f) := by
        unfold cgEnterFdef
        rw [if_pos hty, hnm]
        show (some nm.text, cgSetdefault g nm.text) = (some f, cgSetdefault g f)
        rw [htext]
      rw [henter]
      exact cgTraverseList_isSome_mono f cs _ _
        (cgRecordCall_isSome_mono f _ _ _ (cgLookup_setdefault_self g f))
    · exact cgTraverseList_fdef_present f cs _ _ hlist
termination_by sizeOf n

theorem cgTraverseList_fdef_present (f : String) (l : List CNode)
    (cur : Option String) (g : CallGraph) (h : hasFdefNamedList f l = true) :
    (cgLookup (cgTraverseList l cur g) f).isSome := by
  match l with
  | [] => rw [hasFdefNamedList] at h; exact absurd h (by simp)
  | c :: cs =>
    rw [cgTraverseList]
    rw [hasFdefNamedList] at h
    rcases Bool.or_eq_true_iff.mp h with h1 | h2
    · exact cgTraverseList_isSome_mono f cs cur _ (cgTraverse_fdef_present f c cur g h1)
    · exact cgTraverseList_fdef_present f cs cur _ h2
termination_by sizeOf l

end

theorem cgSetdefault_empty_pres (g : CallGraph) (k f : String)
    (hg : cgLookup g f = none ∨ cgLookup g f = some []) :
    cgLookup (cgSetdefault g k) f = none ∨ cgLookup (cgSetdefault g k) f = some [] := by
  by_cases hf : f = k
  · subst hf
    rcases hg with hnone | hempty
    · exact Or.inr (cgLookup_setdefault_none g f hnone)
    · exact Or.inr (cgLookup_setdefault_some g f [] hempty)
  · rw [cgLookup_setdefault_other g k f hf]
    exact hg

theorem cgRecordCall_lookup_eq (f : String) (n : CNode) (cur : Option String)
    (g : CallGraph) (hsafe : cur = some f → isIdCallNode n = false) :
    cgLookup (cgRecordCall n cur g) f = cgLookup g f := by
  unfold cgRecordCall
  split
  · rename_i htyc
    match hcur : cur with
    | none => rfl
    | some cf =>
      match hfn : n.childByField "function" with
      | none => rfl
      | some fn =>
        show cgLookup (if fn.ty = "identifier" then cgAddCallee g cf fn.text else g) f =
          cgLookup g f
        by_cases hid : fn.ty = "identifier"
        · rw [if_pos hid]
          by_cases hcf : cf = f
          · subst hcf
            have : isIdCallNode n = false := hsafe rfl
            unfold isIdCallNode at this
            rw [hfn] at this
            simp [htyc, hid] at this
          · exact cgLookup_addCallee_other g cf f fn.text (fun hh => hcf hh.symm)
        · rw [if_neg hid]
  · rfl

theorem cgEnterFdef_not_fdef (n : CNode) (cur : Option String) (g : CallGraph)
    (h : ¬ (n.ty = "function_definition")) : cgEnterFdef n cur g = (cur, g) := by
  unfold cgEnterFdef
  rw [if_neg h]

theorem cgRecordCall_not_call (n : CNode) (cur : Option String) (g : CallGraph)
    (h : ¬ (n.ty = "call_expression")) : cgRecordCall n cur g = g := by
  unfold cgRecordCall
  rw [if_neg h]

mutual

theorem cgTraverse_callfree (f : String) (n : CNode) (cur : Option String)
    (g : CallGraph) (hcf : fdefsCallFree f n = true)
    (hcur : cur = some f → hasIdCall n = false)
    (hg : cgLookup g f = none ∨ cgLookup g f = some []) :
    cgLookup (cgTraverse n cur g) f = none ∨
    cgLookup (cgTraverse n cur g) f = some [] := by
  cases n with
  | mk ty tx ft sr er cs =>
    rw [cgTraverse]
    rw [fdefsCallFree] at hcf
    rcases Bool.and_eq_true_iff.mp hcf with ⟨hhead, hlist⟩
    by_cases hty : ty = "function_definition"
    · have htyn : (CNode.mk ty tx ft sr er cs).ty = "function_definition" := hty
      have hnotcall : ¬ ((CNode.mk ty tx ft sr er cs).ty = "call_expression") := by
        rw [htyn]; intro hh; exact absurd hh (by decide)
      rcases hopt : getFunctionNameOpt ((CNode.mk ty tx ft sr er cs).childByField "declarator")
          with _ | nm
      · have henter : cgEnterFdef (.mk ty tx ft sr er cs) cur g = (cur, g) := by
          unfold cgEnterFdef
          rw [if_pos htyn, hopt]
        rw [henter, cgRecordCall_not_call _ _ _ hnotcall]
        refine cgTraverseList_callfree f cs cur g hlist ?_ hg
        intro hc
        have := hcur hc
        rw [hasIdCall] at this
        exact (Bool.or_eq_false_iff.mp this).2
      · have henter : cgEnterFdef (.mk ty tx ft sr er cs) cur g =
            (some nm.text, cgSetdefault g nm.text) := by
          unfold cgEnterFdef
          rw [if_pos htyn, hopt]
        rw [henter, cgRecordCall_not_call _ _ _ hnotcall]
        refine cgTraverseList_callfree f cs (some nm.text) _ hlist ?_
          (cgSetdefault_empty_pres g nm.text f hg)
        intro hc
        have htext : nm.text = f := by
          have := Option.some.inj hc
          exact this
        have hname : fdefName (.mk ty tx ft sr er cs) = some f := by
          unfold fdefName
          rw [hopt, Option.map_some', htext]
        have hid2 : hasIdCall (.mk ty tx ft sr er cs) = false := by
          rcases Bool.or_eq_true_iff.mp hhead with hL | hR
          · exfalso
            rw [Bool.not_eq_true', Bool.and_eq_false_iff] at hL
            rcases hL with hL | hL
            · rw [decide_eq_false_iff_not] at hL; exact hL htyn
            · rw [decide_eq_false_iff_not] at hL; exact hL hname
          · rwa [Bool.not_eq_true'] at hR
        rw [hasIdCall] at hid2
        exact (Bool.or_eq_false_iff.mp hid2).2
    · have htyn : ¬ ((CNode.mk ty tx ft sr er cs).ty = "function_definition") := hty
      have hsafe : cur = some f → isIdCallNode (.mk ty tx ft sr er cs) = false := by
        intro hc
        have := hcur hc
        rw [hasIdCall] at this
        exact (Bool.or_eq_false_iff.mp this).1
      rw [cgEnterFdef_not_fdef _ _ _ htyn]
      show cgLookup (cgTraverseList cs cur
          (cgRecordCall (.mk ty tx ft sr er cs) cur g)) f = none ∨
        cgLookup (cgTraverseList cs cur
          (cgRecordCall (.mk ty tx ft sr er cs) cur g)) f = some []
      refine cgTraverseList_callfree f cs cur _ hlist ?_ ?_
      · intro hc
        have := hcur hc
        rw [hasIdCall] at this
        exact (Bool.or_eq_false_iff.mp this).2
      · rw [cgRecordCall_lookup_eq f _ cur g hsafe]
        exact hg
termination_by sizeOf n

theorem cgTraverseList_callfree (f : String) (l : List CNode) (cur : Option String)
    (g : CallGraph) (hcf : fdefsCallFreeList f l = true)
    (hcur : cur = some f → hasIdCallList l = false)
    (hg : cgLookup g f = none ∨ cgLookup g f = some []) :
    cgLookup (cgTraverseList l cur g) f = none ∨
    cgLookup (cgTraverseList l cur g) f = some [] := by
  match l with
  | [] => rw [cgTraverseList]; exact hg
  | c :: cs =>
    rw [cgTraverseList]
    rw [fdefsCallFreeList] at hcf
    rcases Bool.and_eq_true_iff.mp hcf with ⟨hc, hcs⟩
    refine cgTraverseList_callfree f cs cur _ hcs ?_ ?_
    · intro hcur'
      have := hcur hcur'
      rw [hasIdCallList] at this
      exact (Bool.or_eq_false_iff.mp this).2
    · refine cgTraverse_callfree f c cur g hc ?_ hg
      intro hcur'
      have := hcur hcur'
      rw [hasIdCallList] at this
      exact (Bool.or_eq_false_iff.mp this).1
termination_by sizeOf l

end

theorem cgLookup_map_sort (g : CallGraph) (f : String) :
    cgLookup (g.map (fun p => (p.1, sortStrs p.2))) f =
      (cgLookup g f).map sortStrs := by
  unfold cgLookup
  rw [find?_key_map g (fun p => (p.1, sortStrs p.2)) (fun p => rfl) f]
  rcases hf : g.find? (fun p => p.1 = f) with _ | p <;> rw [hf] <;> rfl

/-- C4: the end-to-end scenario of the spec holds on the code: for the
two-function sample the call graph is exactly
`{"add": [], "main": ["add", "printf"]}` with callee lists sorted, and
`summarize_function(..., "main")` reports all three booleans false
(trivially so — see `C1_function_scope_queries_never_descend` — but as the
claim states).  In general every function definition whose declarator
resolves to a name appears as a key of the call graph, and when every
definition of that name has a subtree free of direct-identifier call
expressions the key maps to the empty (not absent) list. -/
theorem C4_call_graph_scenario :
    tsGetCallGraph sampleRoot = [("add", []), ("main", ["add", "printf"])] ∧
    (tsSummarizeFunction sampleRoot "main").multiple_returns = false ∧
    (tsSummarizeFunction sampleRoot "main").uses_goto = false ∧
    (tsSummarizeFunction sampleRoot "main").allocates_memory = false ∧
    (∀ (root : CNode) (f : String), hasFdefNamed f root = true →
      ∃ callees, cgLookup (tsGetCallGraph root) f = some callees ∧
        (fdefsCallFree f root = true → callees = [])) := by
  refine ⟨rfl, rfl, rfl, rfl, ?_⟩
  intro root f hfdef
  have hpresent := cgTraverse_fdef_present f root none [] hfdef
  obtain ⟨v, hv⟩ := Option.isSome_iff_exists.mp hpresent
  refine ⟨sortStrs v, ?_, ?_⟩
  · unfold tsGetCallGraph
    rw [cgLookup_map_sort, hv]
    rfl
  · intro hcf
    have hfree := cgTraverse_callfree f root none [] hcf
      (fun hc => absurd hc (by simp)) (Or.inl rfl)
    rcases hfree with hnone | hempty
    · rw [hv] at hnone; exact absurd hnone (by simp)
    · rw [hv] at hempty
      have : v = [] := Option.some.inj hempty
      rw [this]
      rfl

/-- Witness for `C4_call_graph_scenario`: its general clause applied to
the sample tree at function `add`, whose definition contains no call. -/
theorem C4_call_graph_scenario_witness :
    hasFdefNamed "add" sampleRoot = true ∧
    fdefsCallFree "add" sampleRoot = true ∧
    ∃ callees, cgLookup (tsGetCallGraph sampleRoot) "add" = some callees ∧
      (fdefsCallFree "add" sampleRoot = true → callees = []) :=
  ⟨rfl, rfl, C4_call_graph_scenario.2.2.2.2 sampleRoot "add" rfl⟩

theorem foldl_min_zero (l : List Nat) : l.foldl min 0 = 0 := by
  induction l with
  | nil => rfl
  | cons a l ih => simpa [Nat.zero_min] using ih

theorem pyMinOf3_map_succ (o1 o2 o3 : Option Nat) (d : Nat) :
    pyMinOf3 (o1.map (· + 1)) (o2.map (· + 1)) (o3.map (· + 1)) (d + 1) =
    pyMinOf3 o1 o2 o3 d + 1 := by
  rcases o1 with _ | a <;> rcases o2 with _ | b <;> rcases o3 with _ | c <;>
    simp [pyMinOf3] <;> omega

theorem define_endIdx_eq (rest : PyStr) :
    pyMinOf3 (pyFind ' ' rest) (pyFind '\t' rest) (pyFind '(' rest) rest.length =
    (match defineBoundary rest with
     | some b => b
     | none => rest.length) := by
  induction rest with
  | nil => rfl
  | cons c cs ih =>
    by_cases h1 : c = ' '
    · rcases hy : pyFind '\t' cs with _ | b <;> rcases hz : pyFind '(' cs with _ | d <;>
        simp [pyFind, defineBoundary, h1, pyMinOf3, hy, hz, foldl_min_zero]
    · by_cases h2 : c = '\t'
      · have h1' : ¬ (c = ' ') := h1
        rcases hx : pyFind ' ' cs with _ | a <;> rcases hz : pyFind '(' cs with _ | d <;>
          simp [pyFind, defineBoundary, h1', h2, pyMinOf3, hx, hz, foldl_min_zero]
      · by_cases h3 : c = '('
        · rcases hx : pyFind ' ' cs with _ | a <;> rcases hy : pyFind '\t' cs with _ | b <;>
            simp [pyFind, defineBoundary, h1, h2, h3, pyMinOf3, hx, hy, foldl_min_zero]
        · rw [show pyFind ' ' (c :: cs) = (pyFind ' ' cs).map (· + 1) by
              simp [pyFind, h1],
            show pyFind '\t' (c :: cs) = (pyFind '\t' cs).map (· + 1) by
              simp [pyFind, h2],
            show pyFind '(' (c :: cs) = (pyFind '(' cs).map (· + 1) by
              simp [pyFind, h3],
            show (c :: cs).length = cs.length + 1 from rfl,
            pyMinOf3_map_succ, ih,
            show defineBoundary (c :: cs) = (defineBoundary cs).map (· + 1) by
              simp [defineBoundary, h1, h2, h3]]
          rcases defineBoundary cs with _ | b <;> rfl

theorem pyStrip_eq_nil_iff (l : PyStr) :
    pyStrip l = [] ↔ ∀ c ∈ l, pyIsSpace c := by
  unfold pyStrip
  rw [List.reverse_eq_nil_iff, List.dropWhile_eq_nil_iff]
  constructor
  · intro h c hc
    have hl := List.takeWhile_append_dropWhile pyIsSpace l
    rw [← hl] at hc
    rcases List.mem_append.mp hc with h1 | h2
    · exact List.mem_takeWhile_imp h1
    · exact h _ (List.mem_reverse.mpr h2)
  · intro h c hc
    exact h c ((List.dropWhile_sublist pyIsSpace).mem (List.mem_reverse.mp hc))

theorem head?_dropWhile_not (p : Char → Bool) (l : PyStr) (c : Char)
    (h : (l.dropWhile p).head? = some c) : p c = false := by
  induction l with
  | nil => simp [List.dropWhile] at h
  | cons a l ih =>
    rw [List.dropWhile_cons] at h
    by_cases hp : p a
    · rw [if_pos hp] at h; exact ih h
    · rw [if_neg hp] at h
      have : a = c := Option.some.inj h
      rw [← this]
      exact Bool.eq_false_iff.mpr hp

theorem pyStrip_getLast?_not_space (X : PyStr) (c : Char)
    (h : (pyStrip X).getLast? = some c) : pyIsSpace c = false := by
  unfold pyStrip at h
  rw [List.getLast?_reverse] at h
  exact head?_dropWhile_not _ _ _ h

theorem getLast?_drop_of_lt (l : PyStr) (b : Nat) (hb : b < l.length) :
    (l.drop b).getLast? = l.getLast? := by
  induction l generalizing b with
  | nil => simp at hb
  | cons x xs ih =>
    match b with
    | 0 => rfl
    | b + 1 =>
      have hb' : b < xs.length := by simpa using hb
      have hxs : xs ≠ [] := by
        intro hh
        rw [hh] at hb'
        simp at hb'
      rw [List.drop_succ_cons, ih b hb']
      match xs, hxs with
      | y :: ys, _ => rw [List.getLast?_cons_cons]

theorem defineBoundary_lt_length (rest : PyStr) (b : Nat)
    (h : defineBoundary rest = some b) : b < rest.length := by
  induction rest generalizing b with
  | nil => simp [defineBoundary] at h
  | cons c cs ih =>
    unfold defineBoundary at h
    by_cases hc : (c = ' ' || c = '\t' || c = '(') = true
    · rw [if_pos hc] at h
      have : b = 0 := (Option.some.inj h).symm
      rw [this]
      simp
    · rw [if_neg hc] at h
      obtain ⟨b', hb', hbb⟩ := Option.map_eq_some'.mp h
      have := ih b' hb'
      rw [← hbb]
      simp only [List.length_cons]
      omega

theorem specDefineValue_ne_nil (line : PyStr) (v : PyStr)
    (hv : specDefineValue (defineRest line) = some v) : v ≠ [] := by
  intro hnil
  unfold specDefineValue at hv
  rcases hb : defineBoundary (defineRest line) with _ | b
  · rw [hb] at hv; exact absurd hv (by simp)
  · rw [hb] at hv
    have hvv : v = pyStrip ((defineRest line).drop b) := (Option.some.inj hv).symm
    have hblt := defineBoundary_lt_length _ _ hb
    rcases hl : (defineRest line).getLast? with _ | c0
    · rw [List.getLast?_eq_none_iff] at hl
      rw [hl] at hblt
      simp at hblt
    · have hnospace : pyIsSpace c0 = false :=
        pyStrip_getLast?_not_space ((pyStrip line).drop 7) c0 hl
      have hdl : ((defineRest line).drop b).getLast? = some c0 := by
        rw [getLast?_drop_of_lt _ _ hblt]; exact hl
      have hc0mem : c0 ∈ (defineRest line).drop b := List.mem_of_mem_getLast? hdl
      have hall := (pyStrip_eq_nil_iff ((defineRest line).drop b)).mp
        (by rw [← hvv]; exact hnil)
      have := hall c0 hc0mem
      rw [hnospace] at this
      exact absurd this (by simp)

theorem defineOfLine_spec (i : Nat) (line : PyStr)
    (h : startswith "#define".data (pyStrip line) = true) :
    defineOfLine i line = some
      { type := "define", content := specDefineContentAmended (defineRest line),
        line := i + 1, value := specDefineValue (defineRest line) } := by
  unfold defineOfLine
  rw [if_pos h]
  dsimp only
  have hrest : pyStrip ((pyStrip line).drop 7) = defineRest line := rfl
  rw [hrest]
  have hend := define_endIdx_eq (defineRest line)
  rcases hb : defineBoundary (defineRest line) with _ | b
  · rw [hb] at hend
    rw [hend]
    dsimp only
    unfold specDefineContentAmended specDefineValue
    rw [hb]
    dsimp only
    have hcontent : (if (defineRest line).length > 0
        then (defineRest line).take (defineRest line).length
        else defineRest line) = defineRest line := by
      by_cases hl : (defineRest line).length > 0
      · rw [if_pos hl, List.take_length]
      · rw [if_neg hl]
    rw [hcontent, if_neg (lt_irrefl _)]
  · rw [hb] at hend
    rw [hend]
    dsimp only
    unfold specDefineContentAmended specDefineValue
    rw [hb]
    dsimp only
    have hblt := defineBoundary_lt_length _ _ hb
    rw [if_pos hblt]
    congr 1
    by_cases hb0 : b = 0
    · rw [hb0]
      simp
    · have hbpos : b > 0 := Nat.pos_of_ne_zero hb0
      rw [if_pos hbpos, if_neg hb0]

/-- C5 (amended): for every line whose stripped content starts with
`#define`, both backends' extractors emit a directive at that 1-indexed
line whose content is the remainder text before the earliest
space/tab/`(` boundary — except that a boundary at position 0 (a
remainder beginning with `(`) yields the whole remainder — and whose
value is the trimmed text from the boundary position onward, absent
(`none`, never the empty string) when no boundary exists; in particular
`#define NAME value` yields content `NAME` and value `value`. -/
theorem C5_amended_define_extraction :
    extract_defines ["#define NAME value".data] =
      [{ type := "define", content := "NAME".data, line := 1,
         value := some "value".data }] ∧
    ∀ (lines : List PyStr) (i : Nat) (line : PyStr),
      lines[i]? = some line →
      startswith "#define".data (pyStrip line) = true →
      ∃ d, d ∈ extract_defines lines ∧ d ∈ clangExtractDefines lines ∧
        d.type = "define" ∧ d.line = i + 1 ∧
        d.content = specDefineContentAmended (defineRest line) ∧
        d.value = specDefineValue (defineRest line) ∧
        (∀ v, d.value = some v → v ≠ []) := by
  refine ⟨rfl, ?_⟩
  intro lines i line hget hstart
  refine ⟨{ type := "define", content := specDefineContentAmended (defineRest line),
            line := i + 1, value := specDefineValue (defineRest line) },
          ?_, ?_, rfl, rfl, rfl, rfl, ?_⟩
  · unfold extract_defines
    exact List.mem_filterMap.mpr
      ⟨(i, line), List.mk_mem_enum_iff_getElem?.mpr hget, defineOfLine_spec i line hstart⟩
  · unfold clangExtractDefines extract_defines
    exact List.mem_filterMap.mpr
      ⟨(i, line), List.mk_mem_enum_iff_getElem?.mpr hget, defineOfLine_spec i line hstart⟩
  · intro v hv
    exact specDefineValue_ne_nil line v hv

/-- Witness for `C5_amended_define_extraction`: the general clause applied
to the one-line file `#define MAX_SIZE 100`. -/
theorem C5_amended_define_extraction_witness :
    (["#define MAX_SIZE 100".data] : List PyStr)[0]? =
      some "#define MAX_SIZE 100".data ∧
    startswith "#define".data (pyStrip "#define MAX_SIZE 100".data) = true ∧
    ∃ d, d ∈ extract_defines ["#define MAX_SIZE 100".data] ∧
      d ∈ clangExtractDefines ["#define MAX_SIZE 100".data] ∧
      d.type = "define" ∧ d.line = 0 + 1 ∧
      d.content = specDefineContentAmended (defineRest "#define MAX_SIZE 100".data) ∧
      d.value = specDefineValue (defineRest "#define MAX_SIZE 100".data) ∧
      (∀ v, d.value = some v → v ≠ []) :=
  ⟨rfl, rfl, C5_amended_define_extraction.2 ["#define MAX_SIZE 100".data] 0
    "#define MAX_SIZE 100".data rfl rfl⟩

/-- C5 counterexample: for the line `#define (x) y` the remainder is
`(x) y`, whose earliest boundary (the `(`) sits at position 0; the claim's
content — the text between the `#define` prefix and that boundary — is
the empty string, but the extractor emits the whole remainder `(x) y` as
the content (tree_sitter.py line 224:
`name = rest[:end_idx] if end_idx > 0 else rest`). -/
theorem C5_counterexample_paren_content :
    extract_defines ["#define (x) y".data] =
      [{ type := "define", content := "(x) y".data, line := 1,
         value := some "(x) y".data }] ∧
    specDefineContentClaim (defineRest "#define (x) y".data) = [] ∧
    ("(x) y".data : PyStr) ≠ [] :=
  ⟨rfl, rfl, by decide⟩

theorem ecbLoop_terminator (lines : List PyStr) (j : Nat)
    (h1 : startswith "//".data (pyStrip (lines.getD j [])) = false)
    (h2 : startswith "/*".data (pyStrip (lines.getD j [])) = false)
    (h3 : containsSub "*/".data (pyStrip (lines.getD j [])) = false)
    (h4 : pyStrip (lines.getD j []) ≠ []) :
    ∀ f, j < f → (∀ m, j < m → m < f → pyStrip (lines.getD m []) = []) →
      ecbLoop lines f [] = [] := by
  intro f
  induction f with
  | zero => intro h; exact absurd h (by omega)
  | succ k ih =>
    intro hjf hblank
    rw [ecbLoop]
    by_cases hkj : k = j
    · subst hkj
      simp only [h1, h2, h3, Bool.or_self, Bool.false_eq_true, if_false, h4,
        Bool.false_or]
    · have hk : j < k := by omega
      have hblankk : pyStrip (lines.getD k []) = [] := hblank k hk (by omega)
      have g1 : startswith "//".data (pyStrip (lines.getD k [])) = false := by
        rw [hblankk]; rfl
      have g2 : startswith "/*".data (pyStrip (lines.getD k [])) = false := by
        rw [hblankk]; rfl
      have g3 : containsSub "*/".data (pyStrip (lines.getD k [])) = false := by
        rw [hblankk]; rfl
      simp only [g1, g2, g3, Bool.or_self, Bool.false_eq_true, if_false, hblankk,
        if_true]
      exact ih hk (fun m hm1 hm2 => hblank m hm1 (by omega))

/-- C6: in the backward doc-comment scan, when the first non-blank line
above a function's start line is neither a `//` line comment nor a
block-comment line (does not start with `/*` and does not contain `*/`),
the scan terminates immediately and no doc comment is attached
(`_extract_comment_before` returns `None`), regardless of what stands on
earlier lines. -/
theorem C6_terminator_line_yields_no_comment :
    ∀ (lines : List PyStr) (lineNum j : Nat),
      j + 2 ≤ lineNum →
      (∀ m, j < m → m + 2 ≤ lineNum → pyStrip (lines.getD m []) = []) →
      startswith "//".data (pyStrip (lines.getD j [])) = false →
      startswith "/*".data (pyStrip (lines.getD j [])) = false →
      containsSub "*/".data (pyStrip (lines.getD j [])) = false →
      pyStrip (lines.getD j []) ≠ [] →
      extract_comment_before lines lineNum = none := by
  intro lines lineNum j hj hblank h1 h2 h3 h4
  unfold extract_comment_before
  have hempty : ecbLoop lines (lineNum - 1) [] = [] :=
    ecbLoop_terminator lines j h1 h2 h3 h4 (lineNum - 1) (by omega)
      (fun m hm1 hm2 => hblank m hm1 (by omega))
  rw [hempty]
  rfl

/-- Witness for `C6_terminator_line_yields_no_comment`: the file
`int x = 1;` / blank / `int f() { return x; }` with the function starting
on line 3; the nearest non-blank line above is the non-comment line
`int x = 1;`, so no doc comment is attached. -/
theorem C6_terminator_line_yields_no_comment_witness :
    extract_comment_before
      ["int x = 1;".data, "".data, "int f() { return x; }".data] 3 = none := by
  refine C6_terminator_line_yields_no_comment _ 3 0 (by omega) ?_ rfl rfl rfl
    (by decide)
  intro m hm1 hm2
  have : m = 1 := by omega
  subst this
  rfl

/-- C7 (amended): every record returned by `list_globals` carries a name
and a 1-indexed declaration line on both backends; the clang backend's
records additionally carry a type, while the tree-sitter backend's records
consist of exactly the `name` and `line` keys and carry no type.  (Clang
line numbers are 1-based, stated here as a hypothesis on the cursors.) -/
theorem C7_amended_globals_records :
    (∀ (root : CNode) (r : GRecord), r ∈ tsListGlobals root →
      ∃ nm ln, r = [("name", GVal.str nm), ("line", GVal.nat ln)] ∧ 1 ≤ ln) ∧
    (∀ (tu : ClangTU), (∀ c ∈ tu.topLevel, 1 ≤ c.line) →
      ∀ r ∈ clangListGlobals tu,
        ∃ nm ty ln, r = [("name", GVal.str nm), ("type", GVal.str ty),
          ("line", GVal.nat ln)] ∧ 1 ≤ ln) := by
  constructor
  · intro root r hr
    obtain ⟨n, hn, hf⟩ := List.mem_filterMap.mp hr
    by_cases hty : n.ty = "declaration"
    · rw [if_pos hty] at hf
      rcases hd : n.childByField "declarator" with _ | d
      · rw [hd] at hf
        exact absurd hf (by simp)
      · rw [hd] at hf
        have hr' := Option.some.inj hf
        exact ⟨d.text, n.startRow + 1, hr'.symm, by omega⟩
    · rw [if_neg hty] at hf
      exact absurd hf (by simp)
  · intro tu hline r hr
    obtain ⟨c, hc, hg⟩ := List.mem_map.mp hr
    have hcmem : c ∈ tu.topLevel := (List.mem_filter.mp hc).1
    exact ⟨c.spelling, c.typeSpelling, c.line, hg.symm, hline c hcmem⟩

/-- Witness for `C7_amended_globals_records`: both clauses applied to the
one-line file `int x = 5;` on the respective backends. -/
theorem C7_amended_globals_records_witness :
    (∃ nm ln, ([("name", GVal.str "x = 5"), ("line", GVal.nat 1)] : GRecord) =
      [("name", GVal.str nm), ("line", GVal.nat ln)] ∧ 1 ≤ ln) ∧
    (∃ nm ty ln, ([("name", GVal.str "x"), ("type", GVal.str "int"),
        ("line", GVal.nat 1)] : GRecord) =
      [("name", GVal.str nm), ("type", GVal.str ty), ("line", GVal.nat ln)] ∧
      1 ≤ ln) := by
  constructor
  · refine C7_amended_globals_records.1 gRoot _ ?_
    rw [show tsListGlobals gRoot =
      [[("name", GVal.str "x = 5"), ("line", GVal.nat 1)]] from rfl]
    exact List.mem_singleton.mpr rfl
  · refine C7_amended_globals_records.2 gTU (by decide) _ ?_
    rw [show clangListGlobals gTU =
      [[("name", GVal.str "x"), ("type", GVal.str "int"),
        ("line", GVal.nat 1)]] from rfl]
    exact List.mem_singleton.mpr rfl

/-- C7 counterexample: on the tree-sitter backend the record for the
top-level declaration `int x = 5;` has only the `name` and `line` keys —
no `type` key — refuting the claim that every `list_globals` record
contains a type on both backends.  (The recorded "name" is in fact the
full declarator text `x = 5`, as the code stores `declarator.text`.) -/
theorem C7_counterexample_no_type_key :
    tsListGlobals gRoot = [[("name", GVal.str "x = 5"), ("line", GVal.nat 1)]] ∧
    recordHasKey [("name", GVal.str "x = 5"), ("line", GVal.nat 1)] "type" = false :=
  ⟨rfl, rfl⟩

mutual

theorem findFunctionBody_none (fname : String) (n : CNode)
    (h : hasFdefNamed fname n = false) : findFunctionBody fname n = none := by
  cases n with
  | mk ty tx ft sr er cs =>
    rw [findFunctionBody]
    rw [hasFdefNamed] at h
    obtain ⟨hself, hlist⟩ := Bool.or_eq_false_iff.mp h
    have hdirect : (if (CNode.mk ty tx ft sr er cs).ty = "function_definition" then
        match (CNode.mk ty tx ft sr er cs).childByField "declarator" with
        | some d =>
          match getFunctionName d with
          | some nm =>
            if nm.text = fname
            then ((CNode.mk ty tx ft sr er cs).childByField "body").map CNode.text
            else none
          | none => none
        | none => none
      else none) = none := by
      by_cases hty : (CNode.mk ty tx ft sr er cs).ty = "function_definition"
      · rw [if_pos hty]
        rcases hd : (CNode.mk ty tx ft sr er cs).childByField "declarator" with _ | d
        · rfl
        · dsimp only
          rcases hnm : getFunctionName d with _ | nm
          · rfl
          · dsimp only
            have hne : ¬ (nm.text = fname) := by
              intro heq
              have hname : fdefName (.mk ty tx ft sr er cs) = some fname := by
                unfold fdefName getFunctionNameOpt
                rw [hd, Option.some_bind, hnm, Option.map_some', heq]
              rw [Bool.and_eq_false_iff] at hself
              rcases hself with hL | hL
              · rw [decide_eq_false_iff_not] at hL; exact hL hty
              · rw [decide_eq_false_iff_not] at hL; exact hL hname
            rw [if_neg hne]
      · rw [if_neg hty]
    rw [hdirect]
    exact ffbChildren_none fname cs hlist
termination_by sizeOf n

theorem ffbChildren_none (fname : String) (l : List CNode)
    (h : hasFdefNamedList fname l = false) : ffbChildren fname l = none := by
  match l with
  | [] => rfl
  | c :: cs =>
    rw [ffbChildren]
    rw [hasFdefNamedList] at h
    obtain ⟨hc, hcs⟩ := Bool.or_eq_false_iff.mp h
    rw [findFunctionBody_none fname c hc]
    exact ffbChildren_none fname cs hcs
termination_by sizeOf l

end

/-- C8 (amended): an absent function name yields the explicit `None`
marker from `get_function_body` — never an exception, and distinct from
an empty-string body — with the absence condition each backend actually
tests.  The tree-sitter search returns `None` whenever no
`function_definition` in the file's parse tree resolves to the name.  The
clang search applies no `location.file` filter (unlike `list_functions`),
so its guarantee needs the stronger premise that no cursor anywhere in
the translation unit — included headers too — is a definition of that
spelling; a name defined only in a header instead yields a line slice of
the target file (see the counterexample). -/
theorem C8_absent_function_body_is_none :
    (∀ (root : CNode) (fname : String), hasFdefNamed fname root = false →
      tsGetFunctionBody root fname = none) ∧
    (∀ (tu : ClangTU) (fileLines : List String) (fname : String),
      (∀ c ∈ tu.cursors,
        ¬ (c.kind = "FUNCTION_DECL" ∧ c.spelling = fname ∧ c.isDefinition = true)) →
      clangGetFunctionBody tu fileLines fname = none) := by
  constructor
  · intro root fname h
    exact findFunctionBody_none fname root h
  · intro tu fileLines fname h
    unfold clangGetFunctionBody
    have hfind : tu.cursors.find? (fun c =>
        c.kind = "FUNCTION_DECL" && c.spelling = fname && c.isDefinition) = none := by
      rw [List.find?_eq_none]
      intro c hc
      intro habs
      apply h c hc
      simp only [Bool.and_eq_true, decide_eq_true_eq] at habs
      exact ⟨habs.1.1, habs.1.2, habs.2⟩
    rw [hfind]

/-- Witness for `C8_absent_function_body_is_none`: the name
`nonexistent` is defined neither in the two-function sample (tree-sitter)
nor in the `int x = 5;` translation unit (clang), and both lookups return
`None`. -/
theorem C8_absent_function_body_is_none_witness :
    tsGetFunctionBody sampleRoot "nonexistent" = none ∧
    clangGetFunctionBody gTU ["int x = 5;\n"] "nonexistent" = none :=
  ⟨C8_absent_function_body_is_none.1 sampleRoot "nonexistent" rfl,
   C8_absent_function_body_is_none.2 gTU ["int x = 5;\n"] "nonexistent"
     (by decide)⟩

/-- C8 counterexample: the original claim's clang clause is false.  In
`hdrTU` the name `helper` is not defined in the target file — no cursor
is a `FUNCTION_DECL` definition located in the file, and `list_functions`
on the file is empty — yet `get_function_body` (clang_analyzer.py, lines
103-118), which filters cursors by kind, spelling and `is_definition()`
only, matches the included header's definition cursor and returns the
slice `lines[2:5]` of the one-line target file: `some ""`, an
empty-string body rather than the `None` marker. -/
theorem C8_counterexample_header_defined_name :
    (∀ c ∈ hdrTU.cursors,
      ¬ (c.kind = "FUNCTION_DECL" ∧ c.spelling = "helper" ∧
         c.isDefinition = true ∧ c.inTargetFile = true)) ∧
    clangListFunctions hdrTU "main.c" = [] ∧
    clangGetFunctionBody hdrTU ["int x;\n"] "helper" = some "" ∧
    clangGetFunctionBody hdrTU ["int x;\n"] "helper" ≠ none :=
  ⟨by decide, rfl, rfl, by decide⟩

/-- C9: on both backends `list_functions` and `analyze_file(...).functions`
run the very same extraction on the same parse of the same content
(tree-sitter: both call `_extract_functions`; clang: `analyze_file` calls
`self.list_functions`), so the former is a subset (by name) of the latter
and both report identical start and end lines for each function. -/
theorem C9_list_functions_subset_analyze :
    (∀ (root : CNode) (lines : List PyStr) (path : String),
      (tsAnalyzeFile root lines path).functions = tsListFunctions root lines path) ∧
    (∀ (tu : ClangTU) (lines : List PyStr) (path : String),
      (clangAnalyzeFile tu lines path).functions = clangListFunctions tu path) ∧
    (∀ (root : CNode) (lines : List PyStr) (path : String),
      ∀ f ∈ tsListFunctions root lines path,
        ∃ g ∈ (tsAnalyzeFile root lines path).functions,
          g.name = f.name ∧ g.start_line = f.start_line ∧ g.end_line = f.end_line) ∧
    (∀ (tu : ClangTU) (lines : List PyStr) (path : String),
      ∀ f ∈ clangListFunctions tu path,
        ∃ g ∈ (clangAnalyzeFile tu lines path).functions,
          g.name = f.name ∧ g.start_line = f.start_line ∧ g.end_line = f.end_line) := by
  refine ⟨fun _ _ _ => rfl, fun _ _ _ => rfl, ?_, ?_⟩
  · intro root lines path f hf
    exact ⟨f, hf, rfl, rfl, rfl⟩
  · intro tu lines path f hf
    exact ⟨f, hf, rfl, rfl, rfl⟩

/-- Witness for `C9_list_functions_subset_analyze`: the subset clause
applied to the `add` record of the two-function sample tree. -/
theorem C9_list_functions_subset_analyze_witness :
    ∃ g ∈ (tsAnalyzeFile sampleRoot [] "sample.c").functions,
      g.name = "add" ∧ g.start_line = 1 ∧ g.end_line = 1 := by
  have hlist : tsListFunctions sampleRoot [] "sample.c" = [addFnInfo, mainFnInfo] := rfl
  have hmem : addFnInfo ∈ tsListFunctions sampleRoot [] "sample.c" := by
    rw [hlist]
    exact List.mem_cons_self _ _
  obtain ⟨g, hg, hname, hstart, hend⟩ :=
    C9_list_functions_subset_analyze.2.2.1 sampleRoot [] "sample.c" addFnInfo hmem
  exact ⟨g, hg, hname, hstart, hend⟩

theorem keyLookup_some_mem {A F G L : Type} {cache : Cache A F G L}
    {k : CacheKey} {e : CEntry A F G L} (h : keyLookup cache k = some e) :
    (k, e) ∈ cache := by
  unfold keyLookup at h
  obtain ⟨p, hp, hpe⟩ := Option.map_eq_some'.mp h
  have hk : p.1 = k := by simpa using List.find?_some hp
  have hmem := List.mem_of_find?_eq_some hp
  have : p = (k, e) := by
    rcases p with ⟨pk, pe⟩
    simp only at hk hpe
    rw [hk, hpe]
  rw [← this]
  exact hmem

theorem mem_moveToEnd {A F G L : Type} {cache : Cache A F G L} {k : CacheKey}
    {e : CEntry A F G L} {p : CacheKey × CEntry A F G L}
    (h : p ∈ moveToEnd cache k e) : p ∈ cache ∨ p = (k, e) := by
  unfold moveToEnd at h
  rcases List.mem_append.mp h with h1 | h2
  · exact Or.inl (List.mem_of_mem_filter h1)
  · exact Or.inr (List.mem_singleton.mp h2)

theorem mem_cacheUpdate {A F G L : Type} {cache : Cache A F G L} {k : CacheKey}
    {e' : CEntry A F G L} {p : CacheKey × CEntry A F G L}
    (h : p ∈ cacheUpdate cache k e') : p ∈ cache ∨ p = (k, e') := by
  unfold cacheUpdate at h
  obtain ⟨q, hq, hpq⟩ := List.mem_map.mp h
  by_cases hqk : q.1 = k
  · rw [if_pos hqk] at hpq
    exact Or.inr hpq.symm
  · rw [if_neg hqk] at hpq
    exact Or.inl (hpq ▸ hq)

theorem EntryInv_fresh {A F G L : Type} (B : MBackend A F G L)
    (p : String) (h c : Bytes) :
    EntryInv B { file_path := p, hash := h, content := c } := by
  refine ⟨?_, ?_, ?_, ?_⟩ <;> intro r hr <;> exact absurd hr (by simp)

theorem cachedOp_ok {A F G L R : Type} (B : MBackend A F G L)
    (get : CEntry A F G L → Option R) (set : CEntry A F G L → R → CEntry A F G L)
    (fn : Bytes → R) (maxFiles : Nat) (fs : String → Bytes)
    (cache : Cache A F G L) (path : String)
    (hmax : 1 ≤ maxFiles) (hInv : CacheInv B cache)
    (hget_entry : ∀ e, EntryInv B e → ∀ r, get e = some r → r = fn e.content)
    (hset_entry : ∀ (e : CEntry A F G L) (r : R), r = fn e.content →
      EntryInv B e → EntryInv B (set e r))
    (hset_content : ∀ e r, (set e r).content = e.content)
    (hget_fresh : ∀ (p : String) (h c : Bytes),
      get { file_path := p, hash := h, content := c } = none) :
    ∃ c', cachedOp B get set fn maxFiles fs cache path =
      .ok (fn (fs path), c') ∧ CacheInv B c' := by
  unfold cachedOp getFileEntry
  dsimp only
  rcases hk : keyLookup cache (B.bid, path, contentHash (fs path)) with _ | e
  · -- miss: evict if at capacity, then insert a fresh entry and delegate
    dsimp only
    have hfreshval :
        get { file_path := path, hash := contentHash (fs path),
              content := fs path } = none :=
      hget_fresh _ _ _
    have hInvFresh :
        ∀ p, p = ((B.bid, path, contentHash (fs path)),
            set { file_path := path, hash := contentHash (fs path),
                  content := fs path } (fn (fs path))) →
          p.1.1 = B.bid ∧ p.1.2.2 = contentHash p.2.content ∧ EntryInv B p.2 := by
      intro p hp
      rw [hp]
      refine ⟨rfl, ?_, ?_⟩
      · show contentHash (fs path) = contentHash
          (set { file_path := path, hash := contentHash (fs path),
                 content := fs path } (fn (fs path))).content
        rw [hset_content]
      · exact hset_entry _ _ rfl
          (EntryInv_fresh B path (contentHash (fs path)) (fs path))
    by_cases hlen : cache.length ≥ maxFiles
    · match cache, hInv with
      | [], _ => exact absurd hlen (by simp; omega)
      | q :: t, hInv =>
        rw [if_pos hlen]
        dsimp only
        rw [hfreshval]
        refine ⟨_, rfl, ?_⟩
        intro p hp
        rcases mem_cacheUpdate hp with hp1 | hp2
        · rcases List.mem_append.mp hp1 with hpt | hpk
          · exact hInv p (List.mem_cons_of_mem q hpt)
          · have hpeq := List.mem_singleton.mp hpk
            rw [hpeq]
            exact ⟨rfl, rfl, EntryInv_fresh B path (contentHash (fs path)) (fs path)⟩
        · exact hInvFresh p hp2
    · rw [if_neg hlen]
      dsimp only
      rw [hfreshval]
      refine ⟨_, rfl, ?_⟩
      intro p hp
      rcases mem_cacheUpdate hp with hp1 | hp2
      · rcases List.mem_append.mp hp1 with hpt | hpk
        · exact hInv p hpt
        · have hpeq := List.mem_singleton.mp hpk
          rw [hpeq]
          exact ⟨rfl, rfl, EntryInv_fresh B path (contentHash (fs path)) (fs path)⟩
      · exact hInvFresh p hp2
  · -- hit: the key's hash pins the entry's content to the current bytes
    dsimp only
    have hmem := keyLookup_some_mem hk
    obtain ⟨-, hhash, hentry⟩ := hInv _ hmem
    have hcontent : e.content = fs path := by
      unfold contentHash at hhash
      exact hhash.symm
    rcases hge : get e with _ | r
    · dsimp only
      refine ⟨_, rfl, ?_⟩
      intro p hp
      rcases mem_cacheUpdate hp with hp1 | hp2
      · rcases mem_moveToEnd hp1 with hpc | hpe
        · exact hInv p hpc
        · rw [hpe]
          exact ⟨rfl, hhash, hentry⟩
      · rw [hp2]
        refine ⟨rfl, ?_, hset_entry e (fn (fs path)) (by rw [hcontent]) hentry⟩
        show contentHash (fs path) = contentHash (set e (fn (fs path))).content
        rw [hset_content, hcontent]
    · dsimp only
      have hr : r = fn (fs path) := by
        rw [← hcontent]
        exact hget_entry e hentry r hge
      rw [hr]
      refine ⟨_, rfl, ?_⟩
      intro p hp
      rcases mem_moveToEnd hp with hpc | hpe
      · exact hInv p hpc
      · rw [hpe]
        exact ⟨rfl, hhash, hentry⟩

theorem cachedAnalyzeFile_ok {A F G L : Type} (B : MBackend A F G L)
    (maxFiles : Nat) (fs : String → Bytes) (cache : Cache A F G L) (path : String)
    (hmax : 1 ≤ maxFiles) (hInv : CacheInv B cache) :
    ∃ c', cachedAnalyzeFile B maxFiles fs cache path =
      .ok (B.analyzeFn (fs path), c') ∧ CacheInv B c' := by
  refine cachedOp_ok B _ _ _ maxFiles fs cache path hmax hInv ?_ ?_ ?_ ?_
  · exact fun e he => he.1
  · intro e r hr he
    refine ⟨?_, he.2.1, he.2.2.1, he.2.2.2⟩
    intro r' hr'
    have : r = r' := Option.some.inj hr'
    rw [← this]
    exact hr
  · intro e r
    rfl
  · intro p h c
    rfl

theorem cachedListFunctions_ok {A F G L : Type} (B : MBackend A F G L)
    (maxFiles : Nat) (fs : String → Bytes) (cache : Cache A F G L) (path : String)
    (hmax : 1 ≤ maxFiles) (hInv : CacheInv B cache) :
    ∃ c', cachedListFunctions B maxFiles fs cache path =
      .ok (B.functionsFn (fs path), c') ∧ CacheInv B c' := by
  refine cachedOp_ok B _ _ _ maxFiles fs cache path hmax hInv ?_ ?_ ?_ ?_
  · exact fun e he => he.2.1
  · intro e r hr he
    refine ⟨he.1, ?_, he.2.2.1, he.2.2.2⟩
    intro r' hr'
    have : r = r' := Option.some.inj hr'
    rw [← this]
    exact hr
  · intro e r
    rfl
  · intro p h c
    rfl

theorem cachedGetCallGraph_ok {A F G L : Type} (B : MBackend A F G L)
    (maxFiles : Nat) (fs : String → Bytes) (cache : Cache A F G L) (path : String)
    (hmax : 1 ≤ maxFiles) (hInv : CacheInv B cache) :
    ∃ c', cachedGetCallGraph B maxFiles fs cache path =
      .ok (B.callGraphFn (fs path), c') ∧ CacheInv B c' := by
  refine cachedOp_ok B _ _ _ maxFiles fs cache path hmax hInv ?_ ?_ ?_ ?_
  · exact fun e he => he.2.2.1
  · intro e r hr he
    refine ⟨he.1, he.2.1, ?_, he.2.2.2⟩
    intro r' hr'
    have : r = r' := Option.some.inj hr'
    rw [← this]
    exact hr
  · intro e r
    rfl
  · intro p h c
    rfl

theorem cachedListGlobals_ok {A F G L : Type} (B : MBackend A F G L)
    (maxFiles : Nat) (fs : String → Bytes) (cache : Cache A F G L) (path : String)
    (hmax : 1 ≤ maxFiles) (hInv : CacheInv B cache) :
    ∃ c', cachedListGlobals B maxFiles fs cache path =
      .ok (B.globalsFn (fs path), c') ∧ CacheInv B c' := by
  refine cachedOp_ok B _ _ _ maxFiles fs cache path hmax hInv ?_ ?_ ?_ ?_
  · exact fun e he => he.2.2.2
  · intro e r hr he
    refine ⟨he.1, he.2.1, he.2.2.1, ?_⟩
    intro r' hr'
    have : r = r' := Option.some.inj hr'
    rw [← this]
    exact hr
  · intro e r
    rfl
  · intro p h c
    rfl

/-- C2 (amended): the cache key is built from a digest computed fresh from
the file's current bytes on every call, and the digest is injective in the
model, so any cache hit's entry holds content identical to the current
bytes; consequently every cached operation — hit or miss, changed bytes
or not — returns exactly the wrapped backend's result on the file's
CURRENT bytes (never a result derived from other content), provided
`max_files ≥ 1` and the cache satisfies its coherence invariant
(which the empty cache does and every operation preserves).  A cache miss
and delegation occur whenever the (backend, path, digest) key is not
already cached — but not necessarily whenever the bytes changed since the
previous query (see the counterexample). -/
theorem C2_amended_no_stale_results :
    (∀ (b1 b2 : Bytes), contentHash b1 = contentHash b2 → b1 = b2) ∧
    (∀ {A F G L : Type} (B : MBackend A F G L) (maxFiles : Nat)
       (fs : String → Bytes) (cache : Cache A F G L) (path : String),
      1 ≤ maxFiles → CacheInv B cache →
      (∃ c', cachedAnalyzeFile B maxFiles fs cache path =
        .ok (B.analyzeFn (fs path), c') ∧ CacheInv B c') ∧
      (∃ c', cachedListFunctions B maxFiles fs cache path =
        .ok (B.functionsFn (fs path), c') ∧ CacheInv B c') ∧
      (∃ c', cachedGetCallGraph B maxFiles fs cache path =
        .ok (B.callGraphFn (fs path), c') ∧ CacheInv B c') ∧
      (∃ c', cachedListGlobals B maxFiles fs cache path =
        .ok (B.globalsFn (fs path), c') ∧ CacheInv B c')) := by
  refine ⟨fun b1 b2 h => h, ?_⟩
  intro A F G L B maxFiles fs cache path hmax hInv
  exact ⟨cachedAnalyzeFile_ok B maxFiles fs cache path hmax hInv,
         cachedListFunctions_ok B maxFiles fs cache path hmax hInv,
         cachedGetCallGraph_ok B maxFiles fs cache path hmax hInv,
         cachedListGlobals_ok B maxFiles fs cache path hmax hInv⟩

/-- The empty cache satisfies the coherence invariant. -/
theorem cacheInv_nil {A F G L : Type} (B : MBackend A F G L) :
    CacheInv B ([] : Cache A F G L) := by
  intro p hp
  exact absurd hp (List.not_mem_nil p)

/-- Witness for `C2_amended_no_stale_results`: the four cached operations
on an empty cache with `max_files = 32` each return the backend's result
on the current one-byte content. -/
theorem C2_amended_no_stale_results_witness :
    (∃ c', cachedAnalyzeFile cB 32 (fun _ => [7]) [] "a.c" =
      .ok (cB.analyzeFn [7], c') ∧ CacheInv cB c') ∧
    (∃ c', cachedListFunctions cB 32 (fun _ => [7]) [] "a.c" =
      .ok (cB.functionsFn [7], c') ∧ CacheInv cB c') ∧
    (∃ c', cachedGetCallGraph cB 32 (fun _ => [7]) [] "a.c" =
      .ok (cB.callGraphFn [7], c') ∧ CacheInv cB c') ∧
    (∃ c', cachedListGlobals cB 32 (fun _ => [7]) [] "a.c" =
      .ok (cB.globalsFn [7], c') ∧ CacheInv cB c') :=
  C2_amended_no_stale_results.2 cB 32 (fun _ => [7]) [] "a.c" (by omega)
    (cacheInv_nil cB)

/-- C2 counterexample: "changed bytes always produce a cache miss and a
delegation to the wrapped backend" is false.  Run: analyze `a.c` with
bytes `[0]`, then with bytes `[0, 1]`, then restore the bytes to `[0]`.
On the third call the bytes differ from the previous query's bytes, yet
the (backend, path, digest) key is still cached from the first call, so
the call takes the hit branch — `keyLookup` succeeds, no delegation — and
returns the stored derived result.  (The result still reflects the
current content, which is why only this clause of the claim fails.) -/
theorem C2_counterexample_changed_bytes_hit :
    cachedAnalyzeFile cB 32 (fun _ => [0]) [] "a.c" = .ok (1, cSt1) ∧
    cachedAnalyzeFile cB 32 (fun _ => [0, 1]) cSt1 "a.c" = .ok (2, cSt2) ∧
    ([0] : Bytes) ≠ [0, 1] ∧
    (keyLookup cSt2 (cB.bid, "a.c", contentHash [0])).isSome = true ∧
    cachedAnalyzeFile cB 32 (fun _ => [0]) cSt2 "a.c" =
      .ok (1, moveToEnd cSt2 (cB.bid, "a.c", contentHash [0])
        { file_path := "a.c", hash := [0], content := [0], analysis := some 1 }) :=
  ⟨rfl, rfl, by decide, rfl, rfl⟩

theorem cachedOp_ne_error {A F G L R : Type} (B : MBackend A F G L)
    (get : CEntry A F G L → Option R) (set : CEntry A F G L → R → CEntry A F G L)
    (fn : Bytes → R) (maxFiles : Nat) (fs : String → Bytes)
    (cache : Cache A F G L) (path : String) (hmax : 1 ≤ maxFiles) :
    ∃ r c', cachedOp B get set fn maxFiles fs cache path = .ok (r, c') := by
  unfold cachedOp getFileEntry
  dsimp only
  rcases hk : keyLookup cache (B.bid, path, contentHash (fs path)) with _ | e
  · by_cases hlen : cache.length ≥ maxFiles
    · match cache with
      | [] => exact absurd hlen (by simp; omega)
      | q :: t =>
        rw [if_pos hlen]
        dsimp only
        rcases hg : get { file_path := path, hash := contentHash (fs path),
                          content := fs path } with _ | r
        · exact ⟨_, _, rfl⟩
        · exact ⟨_, _, rfl⟩
    · rw [if_neg hlen]
      dsimp only
      rcases hg : get { file_path := path, hash := contentHash (fs path),
                        content := fs path } with _ | r
      · exact ⟨_, _, rfl⟩
      · exact ⟨_, _, rfl⟩
  · dsimp only
    rcases hg : get e with _ | r
    · exact ⟨_, _, rfl⟩
    · exact ⟨_, _, rfl⟩

/-- C10: `_get_file_entry` evicts with `popitem(last=False)` whenever
`len(cache) >= max_files`, so a `CachedAnalyzer` built with
`max_files = 0` evicts from the still-empty `OrderedDict` on its very
first cached operation and raises `KeyError` instead of returning a
result — for any backend, file system and path.  For `max_files ≥ 1` the
pop is only reached when `len(cache) ≥ max_files ≥ 1`, i.e. on a
non-empty cache, and no cached operation can raise: each returns a
result from any cache state. -/
theorem C10_zero_capacity_first_call_errors :
    (∀ {A F G L : Type} (B : MBackend A F G L) (fs : String → Bytes)
       (path : String),
      cachedAnalyzeFile B 0 fs ([] : Cache A F G L) path = .error .keyError ∧
      cachedListFunctions B 0 fs ([] : Cache A F G L) path = .error .keyError ∧
      cachedGetCallGraph B 0 fs ([] : Cache A F G L) path = .error .keyError ∧
      cachedListGlobals B 0 fs ([] : Cache A F G L) path = .error .keyError) ∧
    (∀ {A F G L : Type} (B : MBackend A F G L) (maxFiles : Nat)
       (fs : String → Bytes) (cache : Cache A F G L) (path : String),
      1 ≤ maxFiles →
      (∃ r c', cachedAnalyzeFile B maxFiles fs cache path = .ok (r, c')) ∧
      (∃ r c', cachedListFunctions B maxFiles fs cache path = .ok (r, c')) ∧
      (∃ r c', cachedGetCallGraph B maxFiles fs cache path = .ok (r, c')) ∧
      (∃ r c', cachedListGlobals B maxFiles fs cache path = .ok (r, c'))) := by
  constructor
  · intro A F G L B fs path
    exact ⟨rfl, rfl, rfl, rfl⟩
  · intro A F G L B maxFiles fs cache path hmax
    exact ⟨cachedOp_ne_error B _ _ _ maxFiles fs cache path hmax,
           cachedOp_ne_error B _ _ _ maxFiles fs cache path hmax,
           cachedOp_ne_error B _ _ _ maxFiles fs cache path hmax,
           cachedOp_ne_error B _ _ _ maxFiles fs cache path hmax⟩

/-- Witness for `C10_zero_capacity_first_call_errors`: with
`max_files = 0` the first `analyze_file` raises `KeyError`; with
`max_files = 1` all four operations succeed from the empty cache. -/
theorem C10_zero_capacity_first_call_errors_witness :
    cachedAnalyzeFile cB 0 (fun _ => [7]) [] "a.c" = .error .keyError ∧
    (∃ r c', cachedAnalyzeFile cB 1 (fun _ => [7]) [] "a.c" = .ok (r, c')) :=
  ⟨(C10_zero_capacity_first_call_errors.1 cB (fun _ => [7]) "a.c").1,
   (C10_zero_capacity_first_call_errors.2 cB 1 (fun _ => [7]) [] "a.c"
     (by omega)).1⟩

theorem moveToEnd_length_le {A F G L : Type} (cache : Cache A F G L)
    (k : CacheKey) (e e' : CEntry A F G L) (hmem : (k, e') ∈ cache) :
    (moveToEnd cache k e).length ≤ cache.length := by
  unfold moveToEnd
  rw [List.length_append]
  have hlt : (cache.filter (fun p => p.1 ≠ k)).length < cache.length :=
    List.length_filter_lt_length_iff_exists.mpr ⟨(k, e'), hmem, by simp⟩
  simp only [List.length_singleton]
  omega

theorem cachedOp_length_le {A F G L R : Type} (B : MBackend A F G L)
    (get : CEntry A F G L → Option R) (set : CEntry A F G L → R → CEntry A F G L)
    (fn : Bytes → R) (maxFiles : Nat) (fs : String → Bytes)
    (cache : Cache A F G L) (path : String) (r : R) (c' : Cache A F G L)
    (hop : cachedOp B get set fn maxFiles fs cache path = .ok (r, c'))
    (hlen : cache.length ≤ maxFiles) : c'.length ≤ maxFiles := by
  unfold cachedOp getFileEntry at hop
  dsimp only at hop
  rcases hk : keyLookup cache (B.bid, path, contentHash (fs path)) with _ | e
  · rw [hk] at hop
    dsimp only at hop
    by_cases hlen2 : cache.length ≥ maxFiles
    · rw [if_pos hlen2] at hop
      rcases cache with _ | ⟨q, t⟩
      · exact absurd hop (by simp)
      · dsimp only at hop
        have hlit : ({ file_path := path, hash := contentHash (fs path), content := fs path } : CEntry A F G L) = freshEntry path (fs path) := rfl
        rw [hlit] at hop
        rcases hg : get (freshEntry path (fs path)) with _ | r₀ <;> rw [hg] at hop <;>
        · simp only [Except.ok.injEq, Prod.mk.injEq] at hop
          rw [← hop.2]
          simp only [cacheUpdate, List.length_map, List.length_append,
            List.length_singleton]
          simp only [List.length_cons] at hlen
          omega
    · rw [if_neg hlen2] at hop
      dsimp only at hop
      have hlit : ({ file_path := path, hash := contentHash (fs path), content := fs path } : CEntry A F G L) = freshEntry path (fs path) := rfl
      rw [hlit] at hop
      rcases hg : get (freshEntry path (fs path)) with _ | r₀ <;> rw [hg] at hop <;>
      · simp only [Except.ok.injEq, Prod.mk.injEq] at hop
        rw [← hop.2]
        simp only [cacheUpdate, List.length_map, List.length_append,
          List.length_singleton]
        omega
  · rw [hk] at hop
    dsimp only at hop
    have hbound := moveToEnd_length_le cache (B.bid, path, contentHash (fs path))
      e e (keyLookup_some_mem hk)
    rcases hg : get e with _ | r₀ <;> rw [hg] at hop
    · simp only [Except.ok.injEq, Prod.mk.injEq] at hop
      rw [← hop.2]
      simp only [cacheUpdate, List.length_map]
      omega
    · simp only [Except.ok.injEq, Prod.mk.injEq] at hop
      rw [← hop.2]
      omega

theorem cacheReach_length_le {A F G L : Type} (B : MBackend A F G L)
    (maxFiles : Nat) (cache : Cache A F G L)
    (h : CacheReach B maxFiles cache) : cache.length ≤ maxFiles := by
  induction h with
  | init => simp
  | analyze _ hop ih => exact cachedOp_length_le _ _ _ _ _ _ _ _ _ _ hop ih
  | functions _ hop ih => exact cachedOp_length_le _ _ _ _ _ _ _ _ _ _ hop ih
  | callGraph _ hop ih => exact cachedOp_length_le _ _ _ _ _ _ _ _ _ _ hop ih
  | globals _ hop ih => exact cachedOp_length_le _ _ _ _ _ _ _ _ _ _ hop ih

theorem getFileEntry_hit {A F G L : Type} (maxFiles : Nat) (bid path : String)
    (ct : Bytes) (cache : Cache A F G L) (e : CEntry A F G L)
    (h : keyLookup cache (bid, path, contentHash ct) = some e) :
    getFileEntry maxFiles bid path ct cache =
      .ok (e, moveToEnd cache (bid, path, contentHash ct) e) := by
  unfold getFileEntry
  dsimp only
  rw [h]

theorem moveToEnd_getLast {A F G L : Type} (cache : Cache A F G L)
    (k : CacheKey) (e : CEntry A F G L) :
    (moveToEnd cache k e).getLast? = some (k, e) := by
  unfold moveToEnd
  exact List.getLast?_concat _

theorem getFileEntry_miss_room {A F G L : Type} (maxFiles : Nat)
    (bid path : String) (ct : Bytes) (cache : Cache A F G L)
    (hk : keyLookup cache (bid, path, contentHash ct) = none)
    (hlen : cache.length < maxFiles) :
    getFileEntry maxFiles bid path ct cache =
      .ok (freshEntry path ct,
        cache ++ [((bid, path, contentHash ct), freshEntry path ct)]) := by
  unfold getFileEntry
  dsimp only
  rw [hk]
  dsimp only
  rw [if_neg (by omega : ¬ cache.length ≥ maxFiles)]
  rfl

theorem getFileEntry_miss_full {A F G L : Type} (maxFiles : Nat)
    (bid path : String) (ct : Bytes) (q : CacheKey × CEntry A F G L)
    (t : Cache A F G L)
    (hk : keyLookup (q :: t) (bid, path, contentHash ct) = none)
    (hlen : maxFiles ≤ (q :: t).length) :
    getFileEntry maxFiles bid path ct (q :: t) =
      .ok (freshEntry path ct,
        t ++ [((bid, path, contentHash ct), freshEntry path ct)]) := by
  unfold getFileEntry
  dsimp only
  rw [hk]
  dsimp only
  rw [if_pos (by omega : (q :: t).length ≥ maxFiles)]
  rfl

theorem cachedOp_mru {A F G L R : Type} (B : MBackend A F G L)
    (get : CEntry A F G L → Option R) (set : CEntry A F G L → R → CEntry A F G L)
    (fn : Bytes → R) (maxFiles : Nat) (fs : String → Bytes)
    (cache : Cache A F G L) (path : String) (r : R) (c' : Cache A F G L)
    (hop : cachedOp B get set fn maxFiles fs cache path = .ok (r, c')) :
    ∃ e, c'.getLast? = some ((B.bid, path, contentHash (fs path)), e) := by
  unfold cachedOp getFileEntry at hop
  dsimp only at hop
  rcases hk : keyLookup cache (B.bid, path, contentHash (fs path)) with _ | e
  · rw [hk] at hop
    dsimp only at hop
    by_cases hlen2 : cache.length ≥ maxFiles
    · rw [if_pos hlen2] at hop
      rcases cache with _ | ⟨q, t⟩
      · exact absurd hop (by simp)
      · dsimp only at hop
        have hlit : ({ file_path := path, hash := contentHash (fs path), content := fs path } : CEntry A F G L) = freshEntry path (fs path) := rfl
        rw [hlit] at hop
        rcases hg : get (freshEntry path (fs path)) with _ | r₀ <;> rw [hg] at hop
        · simp only [Except.ok.injEq, Prod.mk.injEq] at hop
          refine ⟨set (freshEntry path (fs path)) (fn (fs path)), ?_⟩
          rw [← hop.2]
          unfold cacheUpdate
          rw [List.getLast?_map, List.getLast?_concat]
          simp
        · simp only [Except.ok.injEq, Prod.mk.injEq] at hop
          refine ⟨freshEntry path (fs path), ?_⟩
          rw [← hop.2]
          exact List.getLast?_concat _
    · rw [if_neg hlen2] at hop
      dsimp only at hop
      have hlit : ({ file_path := path, hash := contentHash (fs path), content := fs path } : CEntry A F G L) = freshEntry path (fs path) := rfl
      rw [hlit] at hop
      rcases hg : get (freshEntry path (fs path)) with _ | r₀ <;> rw [hg] at hop
      · simp only [Except.ok.injEq, Prod.mk.injEq] at hop
        refine ⟨set (freshEntry path (fs path)) (fn (fs path)), ?_⟩
        rw [← hop.2]
        unfold cacheUpdate
        rw [List.getLast?_map, List.getLast?_concat]
        simp
      · simp only [Except.ok.injEq, Prod.mk.injEq] at hop
        refine ⟨freshEntry path (fs path), ?_⟩
        rw [← hop.2]
        exact List.getLast?_concat _
  · rw [hk] at hop
    dsimp only at hop
    rcases hg : get e with _ | r₀ <;> rw [hg] at hop
    · simp only [Except.ok.injEq, Prod.mk.injEq] at hop
      refine ⟨set e (fn (fs path)), ?_⟩
      rw [← hop.2]
      unfold cacheUpdate moveToEnd
      rw [List.getLast?_map, List.getLast?_concat]
      simp
    · simp only [Except.ok.injEq, Prod.mk.injEq] at hop
      refine ⟨e, ?_⟩
      rw [← hop.2]
      exact moveToEnd_getLast _ _ _

/-- C3: for a `CachedAnalyzer` built with `max_files ≥ 1`, the cache holds
at most `max_files` entries after any sequence of the four cached
operations starting from the empty cache; eviction is strict LRU over the
`OrderedDict` order (least recently used first): (a) a hit returns
`move_to_end` of the cache, which places the hit key at the
most-recently-used (last) position; (b) a miss with room appends the fresh
entry at the most-recently-used position; (c) a miss at capacity evicts
the head — the least-recently-used entry (`popitem(last=False)`) — before
appending; and (d) after any successful cached operation the operation's
key occupies the most-recently-used position. -/
theorem C3_lru_capacity_and_order :
    (∀ {A F G L : Type} (B : MBackend A F G L) (maxFiles : Nat)
       (cache : Cache A F G L), 1 ≤ maxFiles → CacheReach B maxFiles cache →
       cache.length ≤ maxFiles) ∧
    (∀ {A F G L : Type} (maxFiles : Nat) (bid path : String) (ct : Bytes)
       (cache : Cache A F G L) (e : CEntry A F G L),
       keyLookup cache (bid, path, contentHash ct) = some e →
       getFileEntry maxFiles bid path ct cache =
         .ok (e, moveToEnd cache (bid, path, contentHash ct) e) ∧
       (moveToEnd cache (bid, path, contentHash ct) e).getLast? =
         some ((bid, path, contentHash ct), e)) ∧
    (∀ {A F G L : Type} (maxFiles : Nat) (bid path : String) (ct : Bytes)
       (cache : Cache A F G L),
       keyLookup cache (bid, path, contentHash ct) = none →
       cache.length < maxFiles →
       getFileEntry maxFiles bid path ct cache =
         .ok (freshEntry path ct,
           cache ++ [((bid, path, contentHash ct), freshEntry path ct)])) ∧
    (∀ {A F G L : Type} (maxFiles : Nat) (bid path : String) (ct : Bytes)
       (q : CacheKey × CEntry A F G L) (t : Cache A F G L),
       keyLookup (q :: t) (bid, path, contentHash ct) = none →
       maxFiles ≤ (q :: t).length →
       getFileEntry maxFiles bid path ct (q :: t) =
         .ok (freshEntry path ct,
           t ++ [((bid, path, contentHash ct), freshEntry path ct)])) ∧
    (∀ {A F G L : Type} (B : MBackend A F G L) (maxFiles : Nat)
       (fs : String → Bytes) (cache : Cache A F G L) (path : String),
       (∀ (r : A) c', cachedAnalyzeFile B maxFiles fs cache path = .ok (r, c') →
         ∃ e, c'.getLast? = some ((B.bid, path, contentHash (fs path)), e)) ∧
       (∀ (r : F) c', cachedListFunctions B maxFiles fs cache path = .ok (r, c') →
         ∃ e, c'.getLast? = some ((B.bid, path, contentHash (fs path)), e)) ∧
       (∀ (r : G) c', cachedGetCallGraph B maxFiles fs cache path = .ok (r, c') →
         ∃ e, c'.getLast? = some ((B.bid, path, contentHash (fs path)), e)) ∧
       (∀ (r : L) c', cachedListGlobals B maxFiles fs cache path = .ok (r, c') →
         ∃ e, c'.getLast? = some ((B.bid, path, contentHash (fs path)), e))) := by
  refine ⟨?_, ?_, ?_, ?_, ?_⟩
  · intro A F G L B maxFiles cache _ h
    exact cacheReach_length_le B maxFiles cache h
  · intro A F G L maxFiles bid path ct cache e h
    exact ⟨getFileEntry_hit maxFiles bid path ct cache e h,
           moveToEnd_getLast cache (bid, path, contentHash ct) e⟩
  · intro A F G L maxFiles bid path ct cache hk hlen
    exact getFileEntry_miss_room maxFiles bid path ct cache hk hlen
  · intro A F G L maxFiles bid path ct q t hk hlen
    exact getFileEntry_miss_full maxFiles bid path ct q t hk hlen
  · intro A F G L B maxFiles fs cache path
    refine ⟨?_, ?_, ?_, ?_⟩ <;> intro r c' hop
    · unfold cachedAnalyzeFile at hop
      exact cachedOp_mru B _ _ _ maxFiles fs cache path r c' hop
    · unfold cachedListFunctions at hop
      exact cachedOp_mru B _ _ _ maxFiles fs cache path r c' hop
    · unfold cachedGetCallGraph at hop
      exact cachedOp_mru B _ _ _ maxFiles fs cache path r c' hop
    · unfold cachedListGlobals at hop
      exact cachedOp_mru B _ _ _ maxFiles fs cache path r c' hop

/-- Witness for `C3_lru_capacity_and_order` on concrete runs: the
reachable one-entry state `cSt1` respects the bound; a hit on `cSt2` moves
the hit entry to the most-recently-used end; a miss on `cSt1` with room
(capacity 32) appends at the end; a miss on `cSt1` at capacity 1 evicts
the head and appends; and a successful `analyze_file` leaves its key at
the most-recently-used position. -/
theorem C3_lru_capacity_and_order_witness :
    (1 ≤ 32 ∧ CacheReach cB 32 cSt1 ∧ cSt1.length ≤ 32) ∧
    (keyLookup cSt2 ("TreeSitterAnalyzer", "a.c", contentHash [0]) = some cEnt1 ∧
     (getFileEntry 32 "TreeSitterAnalyzer" "a.c" [0] cSt2 =
        .ok (cEnt1, moveToEnd cSt2 ("TreeSitterAnalyzer", "a.c", contentHash [0]) cEnt1) ∧
      (moveToEnd cSt2 ("TreeSitterAnalyzer", "a.c", contentHash [0]) cEnt1).getLast? =
        some (("TreeSitterAnalyzer", "a.c", contentHash [0]), cEnt1))) ∧
    (keyLookup cSt1 ("TreeSitterAnalyzer", "a.c", contentHash [0, 1]) = none ∧
     cSt1.length < 32 ∧
     getFileEntry 32 "TreeSitterAnalyzer" "a.c" [0, 1] cSt1 =
       .ok (freshEntry "a.c" [0, 1],
         cSt1 ++ [(("TreeSitterAnalyzer", "a.c", contentHash [0, 1]),
           freshEntry "a.c" [0, 1])])) ∧
    (keyLookup cSt1 ("TreeSitterAnalyzer", "a.c", contentHash [0, 1]) = none ∧
     1 ≤ cSt1.length ∧
     getFileEntry 1 "TreeSitterAnalyzer" "a.c" [0, 1] cSt1 =
       .ok (freshEntry "a.c" [0, 1],
         [] ++ [(("TreeSitterAnalyzer", "a.c", contentHash [0, 1]),
           freshEntry "a.c" [0, 1])])) ∧
    (cachedAnalyzeFile cB 32 (fun _ => [0]) [] "a.c" = .ok (1, cSt1) ∧
     ∃ e, cSt1.getLast? = some (("TreeSitterAnalyzer", "a.c", contentHash [0]), e)) := by
  have hreach : CacheReach cB 32 cSt1 :=
    CacheReach.analyze CacheReach.init
      (rfl : cachedAnalyzeFile cB 32 (fun _ => [0]) [] "a.c" = .ok (1, cSt1))
  refine ⟨⟨by omega, hreach, C3_lru_capacity_and_order.1 cB 32 cSt1 (by omega) hreach⟩,
    ⟨rfl, C3_lru_capacity_and_order.2.1 32 "TreeSitterAnalyzer" "a.c" [0] cSt2 cEnt1 rfl⟩,
    ⟨rfl, by decide,
     C3_lru_capacity_and_order.2.2.1 32 "TreeSitterAnalyzer" "a.c" [0, 1] cSt1 rfl (by decide)⟩,
    ⟨rfl, by decide,
     C3_lru_capacity_and_order.2.2.2.1 1 "TreeSitterAnalyzer" "a.c" [0, 1]
       (("TreeSitterAnalyzer", "a.c", ([0] : Bytes)), cEnt1) [] rfl (by decide)⟩,
    ⟨rfl,
     (C3_lru_capacity_and_order.2.2.2.2 cB 32 (fun _ => [0]) [] "a.c").1 1 cSt1 rfl⟩⟩
